import Mathlib

/-!
# Verification of the paw-patrole-wiki crawler, translator and server

Shallow embedding of the string- and list-level logic of the three Python
modules of the repository:

* `download_data.py` (namespace `Crawler`): text cleaning, id slugging,
  portable-infobox field extraction, flat-profile construction, link
  discovery from the character-list page, dataset record assembly.
* `translate_data.py` (namespace `Translator`): text cleaning, label
  mapping, the batched/cached remote-translation pipeline and the dataset
  transformation pass.  The remote translation service is modelled as an
  oracle function `R : String → String` applied elementwise to each batch
  (the API translates each submitted string independently); retries,
  backoff and I/O failure handling are transport concerns outside the
  embedding.
* `main.py` (namespace `Server`): dataset loading/filtering/sorting, the
  single-character API endpoint and the media path guard.  The filesystem
  (`os.path.realpath`, `os.path.exists`, `os.path.isfile`) is modelled by
  oracle functions passed as parameters.

Python strings are modelled as `String`/`List Char`.  `str.lower` and
`str.strip` are modelled at the ASCII level (Python additionally folds
some exotic Unicode characters; none of the properties below depend on
that).  Python `dict` (insertion-ordered, updating an existing key in
place) is modelled by association lists with `dictInsert`.
-/

namespace PyStr

/-- Characters matched by the regex class `\s` (ASCII range). -/
def isWs (c : Char) : Bool :=
  c = ' ' || c = '\t' || c = '\n' || c = '\r' || c = '\x0b' || c = '\x0c'

/-- Python `str.strip` family: drop characters satisfying `p` from both ends. -/
def strip (p : Char → Bool) (l : List Char) : List Char :=
  ((l.dropWhile p).reverse.dropWhile p).reverse

/-- Python `str.lstrip`: drop characters satisfying `p` from the front. -/
def lstrip (p : Char → Bool) (l : List Char) : List Char :=
  l.dropWhile p

/-- Single-pass worker for run collapsing; the flag records whether the
scanner is currently inside a run of characters satisfying `p` (so that a
run contributes the replacement character only once). -/
def collapseRunsAux (p : Char → Bool) (r : Char) : Bool → List Char → List Char
  | _, [] => []
  | inRun, c :: rest =>
    if p c then
      if inRun then collapseRunsAux p r true rest
      else r :: collapseRunsAux p r true rest
    else c :: collapseRunsAux p r false rest

/-- `re.sub(cls "+", r, s)`: replace every maximal run of characters
satisfying `p` by the single character `r`. -/
def collapseRuns (p : Char → Bool) (r : Char) (l : List Char) : List Char :=
  collapseRunsAux p r false l

/-- Association-list lookup (first binding wins), modelling Python `dict`
indexing and `dict.get`. -/
def lookupL {β : Type} : List (String × β) → String → Option β
  | [], _ => none
  | p :: rest, k => if p.1 = k then some p.2 else lookupL rest k

/-- Python `k in d` on a dict. -/
def containsKeyB {β : Type} (m : List (String × β)) (k : String) : Bool :=
  m.any (fun p => p.1 = k)

/-- Python `d[k] = v`: update in place if the key is present (keeping its
position), otherwise append. -/
def dictInsert {β : Type} (m : List (String × β)) (k : String) (v : β) :
    List (String × β) :=
  if m.any (fun p => p.1 = k) then m.map (fun p => if p.1 = k then (k, v) else p)
  else m ++ [(k, v)]

/-- Python `a.startswith(b)`. -/
def startswith (s pre : String) : Bool :=
  pre.toList.isPrefixOf s.toList

end PyStr

namespace Crawler

/-- Alphanumeric characters accepted inside a `[...]` reference marker
(regex class `[0-9A-Za-z]`, i.e. codes 48–57, 97–122, 65–90). -/
def isAlnumRef (c : Char) : Bool :=
  (48 ≤ c.toNat && c.toNat ≤ 57) || (97 ≤ c.toNat && c.toNat ≤ 122) ||
    (65 ≤ c.toNat && c.toNat ≤ 90)

/-- Fuel-indexed worker for reference-marker stripping; the fuel is
initialised with the input length, which always suffices because each
step consumes at least one character. -/
def stripRefsFuel : Nat → List Char → List Char
  | _, [] => []
  | 0, l => l
  | fuel + 1, c :: rest =>
    if c = '[' ∧ rest.takeWhile isAlnumRef ≠ [] ∧
        (rest.dropWhile isAlnumRef).head? = some ']' then
      stripRefsFuel fuel (rest.dropWhile isAlnumRef).tail
    else c :: stripRefsFuel fuel rest

/-- `re.sub(r"\[[0-9A-Za-z]+\]", "", s)`: delete every bracketed footnote
marker such as `[1]` or `[a]`.  A `[` opens a marker exactly when it is
followed by a nonempty alphanumeric run and then `]`. -/
def stripRefs (l : List Char) : List Char :=
  stripRefsFuel l.length l

/-- `clean_text` from `download_data.py`: collapse whitespace runs to a
single space, trim, delete footnote-style markers, trim again. -/
def cleanTextL (l : List Char) : List Char :=
  let a := PyStr.strip PyStr.isWs (PyStr.collapseRuns PyStr.isWs ' ' l)
  PyStr.strip PyStr.isWs (stripRefs a)

def clean_text (s : String) : String :=
  String.mk (cleanTextL s.toList)

/-- Characters kept by the slug (regex class `[a-z0-9\-]`, i.e. codes
97–122, 48–57 and `-` = 45). -/
def isSlugChar (c : Char) : Bool :=
  (97 ≤ c.toNat && c.toNat ≤ 122) || (48 ≤ c.toNat && c.toNat ≤ 57) || c = '-'

/-- Python `str.lower`, modelled on the ASCII range `A`–`Z` (codes
65–90). -/
def pyLower (c : Char) : Char :=
  if 65 ≤ c.toNat ∧ c.toNat ≤ 90 then Char.ofNat (c.toNat + 32) else c

/-- The stages of `slugify` from `download_data.py`, on character lists. -/
def slugifyL (l : List Char) : List Char :=
  let s0 := PyStr.strip PyStr.isWs l
  let s1 := s0.map pyLower
  let s2 := s1.flatMap (fun c => if c = '&' then ['a', 'n', 'd'] else [c])
  let s3 := s2.map (fun c => if c = '’' then '\'' else c)
  let s4 := s3.filter (fun c => !(c = '"' || c = '“' || c = '”'))
  let s5 := PyStr.collapseRuns (fun c => PyStr.isWs c || c = '_') '-' s4
  let s6 := s5.map (fun c => if isSlugChar c then c else '-')
  let s7 := PyStr.strip (fun c => c = '-') (PyStr.collapseRuns (fun c => c = '-') '-' s6)
  s7.filter isSlugChar

/-- `slugify` from `download_data.py`; the empty result falls back to the
placeholder id `"item"`. -/
def slugify (title : String) : String :=
  if (slugifyL title.toList).isEmpty then "item"
  else String.mk (slugifyL title.toList)

/-- One `{label, value}` pair of an infobox. -/
structure Field where
  label : String
  value : String
deriving DecidableEq, Repr

/-- One `{group, fields}` entry of an infobox. -/
structure Group where
  group : Option String
  fields : List Field
deriving DecidableEq, Repr

/-- Python truthiness of both strings of a pair (`kv.get("label") and
kv.get("value")`): both nonempty. -/
def validPair (f : Field) : Bool :=
  f.label ≠ "" && f.value ≠ ""

/-- The `flat_profile` construction from `download_data.py` `main`:
ungrouped fields are written into the dict unconditionally, grouped fields
only when their label is not yet present. -/
def flat_profile (fields : List Field) (groups : List Group) :
    List (String × String) :=
  let m1 := fields.foldl
    (fun m kv => if validPair kv then PyStr.dictInsert m kv.label kv.value else m) []
  groups.foldl
    (fun m g => g.fields.foldl
      (fun m kv =>
        if validPair kv && !PyStr.containsKeyB m kv.label then
          m ++ [(kv.label, kv.value)]
        else m) m) m1

/-- The value of the last valid occurrence of label `k` in a field list. -/
def lastVal : List Field → String → Option String
  | [], _ => none
  | kv :: rest, k =>
    match lastVal rest k with
    | some v => some v
    | none => if validPair kv ∧ kv.label = k then some kv.value else none

/-- The value of the first valid occurrence of label `k` in a field list. -/
def firstVal : List Field → String → Option String
  | [], _ => none
  | kv :: rest, k =>
    if validPair kv ∧ kv.label = k then some kv.value else firstVal rest k

/-- Accumulating fold of the ungrouped fields into the flat profile
(the first loop of the `flat_profile` construction). -/
def profFold (m : List (String × String)) (fields : List Field) :
    List (String × String) :=
  fields.foldl
    (fun m kv => if validPair kv then PyStr.dictInsert m kv.label kv.value else m) m

/-- Accumulating fold of one group's fields into the flat profile. -/
def groupFieldsFold (m : List (String × String)) (fs : List Field) :
    List (String × String) :=
  fs.foldl
    (fun m kv =>
      if validPair kv && !PyStr.containsKeyB m kv.label then
        m ++ [(kv.label, kv.value)]
      else m) m

/-- Accumulating fold of all groups into the flat profile. -/
def groupsFold (m : List (String × String)) (gs : List Group) :
    List (String × String) :=
  gs.foldl (fun m g => groupFieldsFold m g.fields) m

/-- One raw `.pi-item.pi-data` node of the infobox markup: the text of its
`.pi-data-label` and `.pi-data-value` child elements, `none` when the
selector finds no such child.  (HTML-to-DOM selection is the external
collaborator; the embedding starts from the selected nodes' text.) -/
structure RawItem where
  labelEl : Option String
  valueEl : Option String
deriving DecidableEq, Repr

/-- One raw `section.pi-item.pi-group` node: optional `.pi-header` text
and the group's `.pi-item.pi-data` nodes. -/
structure RawGroup where
  header : Option String
  items : List RawItem
deriving DecidableEq, Repr

/-- The raw material of one page's `aside.portable-infobox`: presence
flag, optional `.pi-title` text, the already-selected image attributes,
ungrouped data nodes and group sections. -/
structure RawInfobox where
  present : Bool
  titleEl : Option String
  imgUrl : Option String
  fileHref : Option String
  items : List RawItem
  groups : List RawGroup
deriving DecidableEq, Repr

/-- The normalizer's output structure
`{title, image, fields, groups}`. -/
structure Infobox where
  title : Option String
  image : Option (Option String × Option String)
  fields : List Field
  groups : List Group
deriving DecidableEq, Repr

/-- The field-pair extraction loop shared by the ungrouped and grouped
paths of `parse_portable_infobox`: skip nodes missing a label or value
element, clean both texts, keep the pair only when both are nonempty. -/
def extractFields (items : List RawItem) : List Field :=
  items.filterMap (fun it =>
    match it.labelEl, it.valueEl with
    | some lt, some vt =>
      if clean_text lt ≠ "" ∧ clean_text vt ≠ "" then
        some ⟨clean_text lt, clean_text vt⟩
      else none
    | _, _ => none)

/-- `parse_portable_infobox` from `download_data.py`: absent panel yields
the empty structure; otherwise the title is cleaned, the image block is
kept when either an image URL or a file reference was found, and field
pairs are extracted ungrouped and per group (a group is kept when it has
a header or at least one valid pair; a blank header is stored as null). -/
def parse_portable_infobox (rb : RawInfobox) : Infobox :=
  if rb.present then
    { title := rb.titleEl.map clean_text
      image :=
        if rb.imgUrl.isSome || rb.fileHref.isSome then
          some (rb.imgUrl, rb.fileHref)
        else none
      fields := extractFields rb.items
      groups := rb.groups.filterMap (fun g =>
        let gname := match g.header with
          | some h => clean_text h
          | none => ""
        if gname ≠ "" ∨ extractFields g.items ≠ [] then
          some ⟨if gname = "" then none else some gname, extractFields g.items⟩
        else none) }
  else ⟨none, none, [], []⟩

/-- The record assembled by the crawler's `main` for one page (the parts
relevant to the dataset invariants; provenance and image download results
pass through unchanged). -/
structure CrawlChar where
  id : String
  name : String
  profile : List Field
  profile_groups : List Group
  profile_flat : List (String × String)
deriving DecidableEq, Repr

/-- Assembly of one `char_obj` in `download_data.py` `main`: the id is the
slug of the normalized title and `profile_flat` is the flat-profile
construction over the parsed infobox. -/
def buildCharObj (norm_title : String) (ib : Infobox) : CrawlChar :=
  { id := slugify norm_title
    name := norm_title
    profile := ib.fields
    profile_groups := ib.groups
    profile_flat := flat_profile ib.fields ib.groups }

/-- `dataset["characters"].append(char_obj)` — unconditional. -/
def datasetAppend (chars : List CrawlChar) (ch : CrawlChar) : List CrawlChar :=
  chars ++ [ch]

end Crawler

namespace Server

/-- Characters of the id regex class `[a-z0-9-]` (codes 97–122, 48–57,
`-` = 45). -/
def isIdChar (c : Char) : Bool :=
  (97 ≤ c.toNat && c.toNat ≤ 122) || (48 ≤ c.toNat && c.toNat ≤ 57) || c = '-'

/-- `ID_RE.match(s)` with `ID_RE = ^[a-z0-9-]{1,80}$` under Python `re`
semantics: `$` also matches just before a single newline at the end of
the string, so `"chase\n"` matches. -/
def pyMatchId (s : String) : Bool :=
  let core := if s.toList.getLast? = some '\n' then s.toList.dropLast else s.toList
  1 ≤ core.length && core.length ≤ 80 && core.all isIdChar

/-- The pattern `^[a-z0-9-]{1,80}$` in its standard full-match reading
(no trailing-newline tolerance) — the reading used by the claim. -/
def matchesIdPattern (s : String) : Bool :=
  1 ≤ s.toList.length && s.toList.length ≤ 80 && s.toList.all isIdChar

/-- Python `str.strip()` on a string value. -/
def pyStripStr (s : String) : String :=
  String.mk (PyStr.strip PyStr.isWs s.toList)

/-- `_is_truthy_profile_flat`: some pair has both key and value non-blank
after stripping. -/
def is_truthy_profile_flat (m : List (String × String)) : Bool :=
  m.any (fun p => pyStripStr p.1 ≠ "" && pyStripStr p.2 ≠ "")

/-- One record of the stored dataset JSON as read by `main.py` (the
fields `load_dataset` inspects; the JSON-level `isinstance` checks are
subsumed by the typing). -/
structure CharRec where
  id : String
  name : String
  profile_flat : List (String × String)
  image_local_path : Option String
  source_page_url : Option String
  source_attribution : Option String
deriving DecidableEq, Repr

/-- The compact object `load_dataset` builds per retained record. -/
structure ServedChar where
  id : String
  name : String
  image_local_path : Option String
  profile_flat : List (String × String)
  source_page_url : Option String
  source_attribution : Option String
deriving DecidableEq, Repr

/-- The three retention checks of `load_dataset`: valid id, non-blank
name, truthy flat profile. -/
def servedPred (ch : CharRec) : Bool :=
  pyMatchId ch.id && pyStripStr ch.name ≠ "" &&
    is_truthy_profile_flat ch.profile_flat

/-- Image path normalization inside `load_dataset`. -/
def imageRel (ch : CharRec) : Option String :=
  match ch.image_local_path with
  | some lp => if pyStripStr lp ≠ "" then some (pyStripStr lp) else none
  | none => none

/-- The compact representation built for each retained record. -/
def toObj (ch : CharRec) : ServedChar :=
  { id := ch.id
    name := pyStripStr ch.name
    image_local_path := imageRel ch
    profile_flat := ch.profile_flat
    source_page_url := ch.source_page_url
    source_attribution := ch.source_attribution }

/-- Python `str.lower` on a character list (ASCII range, as in
`Crawler.pyLower`). -/
def lowerL (l : List Char) : List Char :=
  l.map Crawler.pyLower

/-- Lexicographic comparison of character lists by code point, modelling
Python string `<=` on the sort keys. -/
def lexLe : List Char → List Char → Bool
  | [], _ => true
  | _ :: _, [] => false
  | a :: as, b :: bs =>
    if a.toNat = b.toNat then lexLe as bs else decide (a.toNat < b.toNat)

/-- The sort key `x["name"].lower()` comparison of `load_dataset`. -/
def nameLe (a b : ServedChar) : Bool :=
  lexLe (lowerL a.name.toList) (lowerL b.name.toList)

/-- `load_dataset` from `main.py`: filter records by `servedPred`, build
the compact objects and the `by_id` dict (in pre-sort insertion order,
later entry winning on a duplicate id), and sort the list by lowercased
name (`list.sort` is a stable sort; modelled by insertion sort). -/
def load_dataset (chars : List CharRec) :
    List ServedChar × List (String × ServedChar) :=
  let objs := (chars.filter servedPred).map toObj
  let by_id := objs.foldl (fun m o => PyStr.dictInsert m o.id o) []
  (List.insertionSort (fun a b => nameLe a b = true) objs, by_id)

/-- `_media_url_for_local_path`: strip, remove leading slashes, require
the `images/` prefix. -/
def media_url_for_local_path (lp : Option String) : Option String :=
  match lp with
  | none => none
  | some s =>
    let l := String.mk (PyStr.lstrip (fun c => c = '/') (pyStripStr s).toList)
    if PyStr.startswith l "images/" then some ("/media/" ++ l) else none

/-- The per-record JSON shape of `/api/characters` and
`/api/characters/<id>`. -/
structure ApiChar where
  id : String
  name : String
  image_url : Option String
  profile_flat : List (String × String)
  source_page_url : Option String
  source_attribution : Option String
deriving DecidableEq, Repr

def toApi (o : ServedChar) : ApiChar :=
  { id := o.id
    name := o.name
    image_url := media_url_for_local_path o.image_local_path
    profile_flat := o.profile_flat
    source_page_url := o.source_page_url
    source_attribution := o.source_attribution }

/-- The `/api/characters` listing body (in served order). -/
def api_characters (chars : List CharRec) : List ApiChar :=
  (load_dataset chars).1.map toApi

/-- The HTTP status of `GET /api/characters/<cid>`: 400 on id-pattern
failure, else 404 when `by_id` has no entry, else 200. -/
def api_character_status (chars : List CharRec) (cid : String) : Nat :=
  if pyMatchId cid = false then 400
  else
    match PyStr.lookupL (load_dataset chars).2 cid with
    | none => 404
    | some _ => 200

/-- `os.path.join(a, b)` for a relative `b`. -/
def ospath_join (a b : String) : String :=
  if a.toList.getLast? = some '/' then a ++ b else a ++ "/" ++ b

/-- `_safe_realpath` from `main.py`, with `os.path.realpath` supplied as
an oracle: resolve `base_dir`, resolve the joined candidate, and reject a
candidate that neither starts with `base + "/"` nor equals the base. -/
def safe_realpath (realpath : String → String) (base_dir rel_path : String) :
    Option String :=
  if ¬ PyStr.startswith (realpath (ospath_join (realpath base_dir) rel_path))
        (realpath base_dir ++ "/") = true ∧
      realpath (ospath_join (realpath base_dir) rel_path) ≠ realpath base_dir
  then none
  else some (realpath (ospath_join (realpath base_dir) rel_path))

/-- Response of the `/media/<path>` handler: HTTP status, error body for
404, the served filesystem path for 200, and the cache header. -/
structure MediaResponse where
  status : Nat
  body : String
  served : Option String
  cacheControl : Option String
deriving DecidableEq, Repr

/-- The `media` handler from `main.py`, with the filesystem
(`os.path.realpath` / `os.path.exists` / `os.path.isfile`) as oracles:
strip leading slashes, require the `images/` prefix, apply the traversal
guard, then require an existing regular file. -/
def media (realpath : String → String) (existsF isfileF : String → Bool)
    (base_dir : String) (maxAge : Nat) (relpath : String) : MediaResponse :=
  if ¬ PyStr.startswith
      (String.mk (PyStr.lstrip (fun c => c = '/') relpath.toList))
      "images/" = true then
    ⟨404, "not found", none, none⟩
  else
    match safe_realpath realpath base_dir
      (String.mk (PyStr.lstrip (fun c => c = '/') relpath.toList)) with
    | none => ⟨404, "not found", none, none⟩
    | some safe_abs =>
      if existsF safe_abs && isfileF safe_abs then
        ⟨200, "", some safe_abs,
          some ("public, max-age=" ++ toString maxAge ++ ", immutable")⟩
      else ⟨404, "not found", none, none⟩

/-- The dataset-file record produced by the crawler, viewed through the
serving layer's record shape (`main.py` reads the JSON the crawler
wrote; image and provenance fields are irrelevant to retention). -/
def crawlToRec (ch : Crawler.CrawlChar) : CharRec :=
  { id := ch.id
    name := ch.name
    profile_flat := ch.profile_flat
    image_local_path := none
    source_page_url := none
    source_attribution := none }

end Server

namespace Translator

/-- Characters of `CONTROL_RE` (`[\x00-\x08\x0b\x0c\x0e-\x1f]`). -/
def isControl (c : Char) : Bool :=
  c.toNat ≤ 8 || c.toNat = 11 || c.toNat = 12 ||
    (14 ≤ c.toNat && c.toNat ≤ 31)

/-- `clean_text` from `translate_data.py` on character lists: control
characters to spaces, whitespace runs to single spaces, strip. -/
def cleanTextTrL (l : List Char) : List Char :=
  PyStr.strip PyStr.isWs
    (PyStr.collapseRuns PyStr.isWs ' '
      (l.map (fun c => if isControl c then ' ' else c)))

def clean_text (s : String) : String :=
  String.mk (cleanTextTrL s.toList)

/-- The fixed label mapping `LABEL_DE`. -/
def LABEL_DE : List (String × String) :=
  [("Species", "Spezies"), ("Gender", "Geschlecht"),
   ("Relatives", "Beziehungen"), ("Age", "Alter"),
   ("Nicknames", "Spitznamen"), ("Occupation", "Rolle / Beruf"),
   ("First appearance", "Erster Auftritt"), ("Likes", "Mag"),
   ("Dislikes", "Mag nicht"), ("Voice (US/Canada):", "Stimme (US/Kanada)"),
   ("Voice (UK):", "Stimme (UK)")]

/-- `map_label`: clean the label and map it through `LABEL_DE`, returning
the cleaned label itself when unmapped. -/
def map_label (label : String) : String :=
  match PyStr.lookupL LABEL_DE (clean_text label) with
  | some v => v
  | none => clean_text label

/-- `is_nonempty_str` on a required string field. -/
def nonempty_str (s : String) : Bool :=
  Server.pyStripStr s ≠ ""

/-- `is_nonempty_str` on an optional field (`None` is not a nonempty
string). -/
def is_nonempty_str (x : Option String) : Bool :=
  match x with
  | some s => nonempty_str s
  | none => false

/-- The deduplication loop of `translate_many`: clean each text, drop
empties, keep first occurrences in order (`seen` is the already-seen
set). -/
def dedupClean : List String → List String → List String
  | [], _ => []
  | t :: rest, seen =>
    if clean_text t = "" then dedupClean rest seen
    else if seen.contains (clean_text t) then dedupClean rest seen
    else clean_text t :: dedupClean rest (clean_text t :: seen)

/-- The `uniq` list of `translate_many`. -/
def uniqTexts (texts : List String) : List String :=
  dedupClean texts []

/-- The `todo` list of `translate_many`: cleaned unique texts not in the
cache. -/
def todoOf (cache : List (String × String)) (texts : List String) :
    List String :=
  (uniqTexts texts).filter (fun t => !PyStr.containsKeyB cache t)

/-- The inner batch-filling loop of `translate_many`: take items while
the batch holds fewer than `BATCH_MAX_ITEMS` (50) items and, once
nonempty, adding the next item would not exceed `BATCH_MAX_CHARS` (8000)
characters; returns the batch and the remaining items. -/
def takeBatchAux : List String → Nat → Nat → List String × List String
  | [], _, _ => ([], [])
  | t :: rest, count, total =>
    if 50 ≤ count then ([], t :: rest)
    else if count ≠ 0 ∧ 8000 < total + t.length then ([], t :: rest)
    else
      (t :: (takeBatchAux rest (count + 1) (total + t.length)).1,
        (takeBatchAux rest (count + 1) (total + t.length)).2)

/-- Fuel-indexed outer batching loop; the fuel is initialised with the
input length, which suffices because every batch takes at least its first
item. -/
def mkBatchesFuel : Nat → List String → List (List String)
  | _, [] => []
  | 0, _ :: _ => []
  | fuel + 1, t :: rest =>
    (t :: (takeBatchAux rest 1 t.length).1) ::
      mkBatchesFuel fuel (takeBatchAux rest 1 t.length).2

/-- The batches `translate_many` sends to the remote service. -/
def mkBatches (todo : List String) : List (List String) :=
  mkBatchesFuel todo.length todo

/-- The cache after all batches are processed: each sent string maps to
the cleaned remote translation (`self.cache[src] = clean_text(dst)`). -/
def cacheAfter (R : String → String) (cache : List (String × String))
    (batches : List (List String)) : List (String × String) :=
  batches.foldl
    (fun c b => b.foldl (fun c s => PyStr.dictInsert c s (clean_text (R s))) c)
    cache

/-- The result of `GCloudTranslator.translate_many`: the returned mapping,
the updated cache, and the log of remote batch calls. -/
structure TMResult where
  res : List (String × String)
  cache : List (String × String)
  calls : List (List String)
deriving DecidableEq, Repr

/-- `GCloudTranslator.translate_many` with the remote service as the
elementwise oracle `R`. -/
def translate_many (R : String → String) (cache : List (String × String))
    (texts : List String) : TMResult :=
  { res := (uniqTexts texts).filterMap (fun t =>
      (PyStr.lookupL (cacheAfter R cache (mkBatches (todoOf cache texts))) t).map
        (fun v => (t, v)))
    cache := cacheAfter R cache (mkBatches (todoOf cache texts))
    calls := mkBatches (todoOf cache texts) }

/-- Translator state threaded through the transformation pass: the
mutable cache and the accumulated remote batch calls. -/
structure TrState where
  cache : List (String × String)
  calls : List (List String)
deriving DecidableEq, Repr

/-- `GCloudTranslator.translate_one`. -/
def translate_one (R : String → String) (st : TrState) (x : String) :
    String × TrState :=
  if clean_text x = "" then ("", st)
  else
    match PyStr.lookupL st.cache (clean_text x) with
    | some v => (v, st)
    | none =>
      ((PyStr.lookupL (translate_many R st.cache [clean_text x]).res
          (clean_text x)).getD (clean_text x),
        ⟨(translate_many R st.cache [clean_text x]).cache,
          st.calls ++ (translate_many R st.cache [clean_text x]).calls⟩)

/-- The inner `tr` of `transform_dataset` (translation enabled, as the
module header fixes `LABELS_ONLY = False`): empty cleaned value passes
through; otherwise `lookup.get(s) or translator.translate_one(s)` — a
missing or empty looked-up translation falls back to `translate_one`. -/
def tr (R : String → String) (lookup : List (String × String)) (st : TrState)
    (val : String) : String × TrState :=
  if clean_text val = "" then (val, st)
  else
    match PyStr.lookupL lookup (clean_text val) with
    | some d => if d ≠ "" then (d, st) else translate_one R st (clean_text val)
    | none => translate_one R st (clean_text val)

/-- One dataset character as the translation pass reads it (the fields
it touches; provenance and image blocks pass through unchanged). -/
structure TChar where
  summary : Option String
  profile : List Crawler.Field
  profile_groups : List Crawler.Group
  profile_flat : List (String × String)
deriving DecidableEq, Repr

/-- `collect_texts_for_translation`, per character: summary, flat-profile
values, profile labels and values, group names, group field labels and
values — each when a nonempty string. -/
def collect_texts_for_char (ch : TChar) : List String :=
  (match ch.summary with
   | some s => if nonempty_str s then [s] else []
   | none => []) ++
  ch.profile_flat.filterMap
    (fun p => if nonempty_str p.2 then some p.2 else none) ++
  ch.profile.flatMap (fun it =>
    (if nonempty_str it.label then [it.label] else []) ++
    (if nonempty_str it.value then [it.value] else [])) ++
  ch.profile_groups.flatMap (fun g =>
    (match g.group with
     | some gname => if nonempty_str gname then [gname] else []
     | none => []) ++
    g.fields.flatMap (fun it =>
      (if nonempty_str it.label then [it.label] else []) ++
      (if nonempty_str it.value then [it.value] else [])))

def collect_texts_for_translation (chars : List TChar) : List String :=
  chars.flatMap collect_texts_for_char

/-- State-threading map (the sequential mutation of the Python loops). -/
def mapState {α β σ : Type} (f : σ → α → β × σ) : σ → List α → List β × σ
  | st, [] => ([], st)
  | st, x :: xs =>
    ((f st x).1 :: (mapState f (f st x).2 xs).1, (mapState f (f st x).2 xs).2)

/-- The per-field transformation of the `profile` / `groups[*].fields`
paths: a nonempty label is mapped through `LABEL_DE` and then re-run
through `tr` only when the mapped label equals the cleaned original; a
nonempty value is translated. -/
def transformField (R : String → String) (lookup : List (String × String))
    (st : TrState) (it : Crawler.Field) : Crawler.Field × TrState :=
  let lres :=
    if nonempty_str it.label then
      if map_label it.label = clean_text it.label then
        tr R lookup st (map_label it.label)
      else (map_label it.label, st)
    else (it.label, st)
  let vres :=
    if nonempty_str it.value then tr R lookup lres.2 it.value
    else (it.value, lres.2)
  (⟨lres.1, vres.1⟩, vres.2)

/-- The per-character transformation of `transform_dataset`: summary,
rebuilt `profile_flat` (labels mapped, values translated), `profile`,
`profile_groups`, in source order. -/
def transformChar (R : String → String) (lookup : List (String × String))
    (st : TrState) (ch : TChar) : TChar × TrState :=
  let sres : Option String × TrState :=
    match ch.summary with
    | some s =>
      if nonempty_str s then (some (tr R lookup st s).1, (tr R lookup st s).2)
      else (some s, st)
    | none => (none, st)
  let pfres : List (String × String) × TrState :=
    ch.profile_flat.foldl
      (fun acc p =>
        let vres := if nonempty_str p.2 then tr R lookup acc.2 p.2
          else (p.2, acc.2)
        (PyStr.dictInsert acc.1 (map_label p.1) vres.1, vres.2))
      ([], sres.2)
  let profres := mapState (transformField R lookup) pfres.2 ch.profile
  let grpres := mapState
    (fun st g =>
      let gres : Option String × TrState :=
        match Crawler.Group.group g with
        | some gname =>
          if nonempty_str gname then
            (some (tr R lookup st gname).1, (tr R lookup st gname).2)
          else (some gname, st)
        | none => (none, st)
      ((Crawler.Group.mk gres.1 (mapState (transformField R lookup) gres.2
          (Crawler.Group.fields g)).1),
        (mapState (transformField R lookup) gres.2 (Crawler.Group.fields g)).2))
    profres.2 ch.profile_groups
  (⟨sres.1, profres.1, grpres.1, pfres.1⟩, grpres.2)

/-- `transform_dataset` with translation enabled: build the batch lookup
over all collected texts, then transform every character, threading the
translator state (the cache after the initial batch, and the call log
starting with the initial batches). -/
def transform_dataset (R : String → String) (cache0 : List (String × String))
    (chars : List TChar) : List TChar × TrState :=
  mapState
    (transformChar R
      (translate_many R cache0 (collect_texts_for_translation chars)).res)
    ⟨(translate_many R cache0 (collect_texts_for_translation chars)).cache,
      (translate_many R cache0 (collect_texts_for_translation chars)).calls⟩
    chars

end Translator

namespace Crawler

/-- `WIKI_BASE` from `download_data.py`. -/
def WIKI_BASE : String := "https://pawpatrol.fandom.com"

/-- `LIST_PAGE_TITLE` from `download_data.py`. -/
def LIST_PAGE_TITLE : String := "List_of_characters"

/-- Python `str.lower` on a whole string (ASCII range). -/
def lowerStr (s : String) : String :=
  String.mk (s.toList.map pyLower)

/-- URL scheme characters (letter, digit, `+`, `-`, `.`). -/
def isSchemeChar (c : Char) : Bool :=
  (97 ≤ c.toNat && c.toNat ≤ 122) || (65 ≤ c.toNat && c.toNat ≤ 90) ||
    (48 ≤ c.toNat && c.toNat ≤ 57) || c = '+' || c = '-' || c = '.'

def isAsciiLetter (c : Char) : Bool :=
  (97 ≤ c.toNat && c.toNat ≤ 122) || (65 ≤ c.toNat && c.toNat ≤ 90)

/-- Strip a leading `scheme:` when the part before the first `:` is a
valid scheme (nonempty, letter-initial, scheme characters only). -/
def stripScheme (l : List Char) : List Char :=
  if (l.takeWhile (fun c => c ≠ ':')).length < l.length ∧
      (l.takeWhile (fun c => c ≠ ':')) ≠ [] ∧
      (l.takeWhile (fun c => c ≠ ':')).all isSchemeChar ∧
      isAsciiLetter ((l.takeWhile (fun c => c ≠ ':')).headD ' ') = true then
    l.drop ((l.takeWhile (fun c => c ≠ ':')).length + 1)
  else l

/-- Strip a leading `//netloc` (after fragment and query are gone, the
authority runs to the next `/`). -/
def stripNetloc (l : List Char) : List Char :=
  match l with
  | '/' :: '/' :: rest => rest.dropWhile (fun c => c ≠ '/')
  | _ => l

/-- `urllib.parse.urlsplit(u).path`: drop the fragment, the query, a
valid scheme, and the authority. -/
def urlsplitPathL (l : List Char) : List Char :=
  stripNetloc (stripScheme
    ((l.takeWhile (fun c => c ≠ '#')).takeWhile (fun c => c ≠ '?')))

def urlsplitPath (s : String) : String :=
  String.mk (urlsplitPathL s.toList)

/-- Hexadecimal digit value. -/
def hexVal (c : Char) : Option Nat :=
  if 48 ≤ c.toNat ∧ c.toNat ≤ 57 then some (c.toNat - 48)
  else if 97 ≤ c.toNat ∧ c.toNat ≤ 102 then some (c.toNat - 87)
  else if 65 ≤ c.toNat ∧ c.toNat ≤ 70 then some (c.toNat - 55)
  else none

/-- `urllib.parse.unquote`, modelled at the byte level: each valid `%XX`
escape becomes the character of code `XX`; an invalid escape stays
literal.  (Multi-byte UTF-8 sequences decode to byte-valued characters;
this cannot affect `:`-detection — `:` is `%3A` and UTF-8 continuation
bytes are ≥ 128 — nor the ASCII self-link comparison.) -/
def pyUnquoteFuel : Nat → List Char → List Char
  | _, [] => []
  | 0, l => l
  | fuel + 1, c :: rest =>
    if c = '%' then
      match rest with
      | h1 :: h2 :: rest2 =>
        match hexVal h1, hexVal h2 with
        | some a, some b => Char.ofNat (16 * a + b) :: pyUnquoteFuel fuel rest2
        | _, _ => c :: pyUnquoteFuel fuel rest
      | _ => c :: pyUnquoteFuel fuel rest
    else c :: pyUnquoteFuel fuel rest

def pyUnquote (l : List Char) : List Char :=
  pyUnquoteFuel l.length l

/-- One anchor element of the listing markup: its `href` attribute and
its extracted display text (DOM selection is the external collaborator). -/
structure Anchor where
  href : String
  text : String
deriving DecidableEq, Repr

/-- The percent-decoded page-title segment of an absolute wiki URL
`WIKI_BASE ++ "/wiki/" ++ title`. -/
def titleOfUrl (u : String) : List Char :=
  pyUnquote (u.toList.drop (WIKI_BASE.toList.length + 6))

/-- The per-anchor acceptance pipeline of
`extract_character_links_from_list_html`, before deduplication: nonempty
cleaned text; absolute links only when on the wiki; a path of the shape
`/wiki/<title>` (regex `^/wiki/([^?#]+)$`); no `:` in the decoded title
(namespace exclusion); not the listing page's own title (self-link
exclusion).  Returns `(display_text, absolute_url)`. -/
def acceptAnchor (a : Anchor) : Option (String × String) :=
  if clean_text a.text = "" then none
  else if ((PyStr.startswith a.href "http://" ||
        PyStr.startswith a.href "https://") &&
      !PyStr.startswith a.href (WIKI_BASE ++ "/wiki/")) = true then none
  else if PyStr.startswith (urlsplitPath a.href) "/wiki/" = false then none
  else if (urlsplitPath a.href).toList.drop 6 = [] then none
  else if (pyUnquote ((urlsplitPath a.href).toList.drop 6)).contains ':'
      = true then none
  else if String.mk ((pyUnquote ((urlsplitPath a.href).toList.drop 6)).map
      (fun c => if c = ' ' then '_' else c)) = LIST_PAGE_TITLE then none
  else some (clean_text a.text, WIKI_BASE ++ urlsplitPath a.href)

/-- The main loop of `extract_character_links_from_list_html`: `seen`
holds the lowercased absolute URLs already emitted; `acc` the emitted
pairs in order. -/
def extractLinksAux : List Anchor → List String → List (String × String) →
    List (String × String)
  | [], _, acc => acc
  | a :: rest, seen, acc =>
    match acceptAnchor a with
    | none => extractLinksAux rest seen acc
    | some p =>
      if seen.contains (lowerStr p.2) then extractLinksAux rest seen acc
      else extractLinksAux rest (lowerStr p.2 :: seen) (acc ++ [p])

def extract_character_links_from_list_html (anchors : List Anchor) :
    List (String × String) :=
  extractLinksAux anchors [] []

/-- First-seen-wins deduplication by lowercased absolute URL — the
specification's description of the output, stated independently of the
interleaved loop. -/
def dedupByLowerUrl : List (String × String) → List String →
    List (String × String)
  | [], _ => []
  | p :: rest, seen =>
    if seen.contains (lowerStr p.2) then dedupByLowerUrl rest seen
    else p :: dedupByLowerUrl rest (lowerStr p.2 :: seen)

/-- The specification-side description of Link Discovery: accept each
anchor, then deduplicate case-insensitively by absolute URL keeping first
occurrences in document order. -/
def linksSpec (anchors : List Anchor) : List (String × String) :=
  dedupByLowerUrl (anchors.filterMap acceptAnchor) []

end Crawler

namespace PyStr

theorem lookupL_append {β : Type} (m1 m2 : List (String × β)) (k : String) :
    lookupL (m1 ++ m2) k = (lookupL m1 k).or (lookupL m2 k) := by
  induction m1 with
  | nil => simp [lookupL]
  | cons p rest ih =>
    simp only [List.cons_append, lookupL]
    by_cases h : p.1 = k <;> simp [h, ih]

theorem containsKeyB_eq_isSome {β : Type} (m : List (String × β)) (k : String) :
    containsKeyB m k = (lookupL m k).isSome := by
  induction m with
  | nil => rfl
  | cons p rest ih =>
    simp only [containsKeyB, List.any_cons, lookupL] at *
    by_cases h : p.1 = k <;> simp [h, ih]

theorem lookupL_map_keep {β : Type} (m : List (String × β)) (k k2 : String) (v : β)
    (hne : k ≠ k2) :
    lookupL (m.map (fun p => if p.1 = k then (k, v) else p)) k2 = lookupL m k2 := by
  induction m with
  | nil => rfl
  | cons p rest ih =>
    by_cases h : p.1 = k
    · simp [lookupL, h, hne, ih]
    · simp only [List.map_cons, if_neg h, lookupL, ih]

theorem lookupL_map_hit {β : Type} (m : List (String × β)) (k : String) (v : β)
    (hmem : containsKeyB m k = true) :
    lookupL (m.map (fun p => if p.1 = k then (k, v) else p)) k = some v := by
  induction m with
  | nil => simp [containsKeyB] at hmem
  | cons p rest ih =>
    by_cases h : p.1 = k
    · simp [lookupL, h]
    · simp only [List.map_cons, if_neg h, lookupL, if_neg h]
      apply ih
      simp only [containsKeyB, List.any_cons, h, decide_eq_true_eq] at hmem
      simpa [containsKeyB] using hmem

theorem lookupL_dictInsert {β : Type} (m : List (String × β)) (k k2 : String) (v : β) :
    lookupL (dictInsert m k v) k2 = if k = k2 then some v else lookupL m k2 := by
  unfold dictInsert
  by_cases hmem : m.any (fun p => p.1 = k)
  · simp only [hmem, if_true]
    by_cases hk : k = k2
    · subst hk
      simp [lookupL_map_hit m k v (by simpa [containsKeyB] using hmem)]
    · simp [lookupL_map_keep m k k2 v hk, hk]
  · simp only [hmem, if_false, Bool.false_eq_true, lookupL_append]
    by_cases hk : k = k2
    · subst hk
      have : lookupL m k = none := by
        cases hl : lookupL m k with
        | none => rfl
        | some w =>
          exfalso
          apply hmem
          have := containsKeyB_eq_isSome m k
          simp [hl] at this
          simpa [containsKeyB] using this
      simp [this, lookupL]
    · by_cases hl : (lookupL m k2).isSome
      · cases h2 : lookupL m k2 with
        | none => simp [h2] at hl
        | some w => simp [h2, hk]
      · cases h2 : lookupL m k2 with
        | none => simp [h2, lookupL, hk, Ne.symm hk]
        | some w => simp [h2] at hl

theorem map_eq_self_of {α : Type} {f : α → α} {l : List α}
    (h : ∀ c ∈ l, f c = c) : l.map f = l := by
  induction l with
  | nil => rfl
  | cons c rest ih =>
    simp [h c (List.mem_cons_self c rest),
      ih (fun d hd => h d (List.mem_cons_of_mem c hd))]

theorem flatMap_eq_self_of {α : Type} {f : α → List α} {l : List α}
    (h : ∀ c ∈ l, f c = [c]) : l.flatMap f = l := by
  induction l with
  | nil => rfl
  | cons c rest ih =>
    simp [h c (List.mem_cons_self c rest),
      ih (fun d hd => h d (List.mem_cons_of_mem c hd))]

theorem dropWhile_eq_self_of_head {p : Char → Bool} {l : List Char}
    (h : ∀ c, l.head? = some c → p c = false) : l.dropWhile p = l := by
  cases l with
  | nil => rfl
  | cons c rest => simp [List.dropWhile_cons, h c rfl]

theorem strip_eq_self_of_all {p : Char → Bool} {l : List Char}
    (h : ∀ c ∈ l, p c = false) : strip p l = l := by
  unfold strip
  have h1 : l.dropWhile p = l := by
    apply dropWhile_eq_self_of_head
    intro c hc
    exact h c (List.mem_of_mem_head? hc)
  rw [h1]
  have h2 : l.reverse.dropWhile p = l.reverse := by
    apply dropWhile_eq_self_of_head
    intro c hc
    exact h c (List.mem_reverse.mp (List.mem_of_mem_head? hc))
  rw [h2, List.reverse_reverse]

theorem mem_strip {p : Char → Bool} {l : List Char} {c : Char}
    (h : c ∈ strip p l) : c ∈ l := by
  unfold strip at h
  rw [List.mem_reverse] at h
  have h2 := (@List.dropWhile_sublist _ ((l.dropWhile p).reverse) p).subset h
  rw [List.mem_reverse] at h2
  exact (List.dropWhile_sublist p).subset h2

theorem collapseRunsAux_eq_self {p : Char → Bool} {r : Char} {l : List Char}
    (h : ∀ c ∈ l, p c = false) (b : Bool) : collapseRunsAux p r b l = l := by
  induction l generalizing b with
  | nil => rfl
  | cons c rest ih =>
    have hc := h c (List.mem_cons_self c rest)
    simp [collapseRunsAux, hc,
      ih (fun d hd => h d (List.mem_cons_of_mem c hd))]

theorem mem_collapseRunsAux {p : Char → Bool} {r : Char} {l : List Char}
    {b : Bool} {c : Char}
    (h : c ∈ collapseRunsAux p r b l) : c = r ∨ c ∈ l := by
  induction l generalizing b with
  | nil => simp [collapseRunsAux] at h
  | cons d rest ih =>
    by_cases hd : p d = true
    · cases b with
      | true =>
        simp only [collapseRunsAux, hd, if_true] at h
        rcases ih h with h2 | h2
        · exact Or.inl h2
        · exact Or.inr (List.mem_cons_of_mem d h2)
      | false =>
        simp only [collapseRunsAux, hd, if_true] at h
        rcases List.mem_cons.mp h with h2 | h2
        · exact Or.inl h2
        · rcases ih h2 with h3 | h3
          · exact Or.inl h3
          · exact Or.inr (List.mem_cons_of_mem d h3)
    · simp only [collapseRunsAux, hd, if_false, Bool.false_eq_true] at h
      rcases List.mem_cons.mp h with h2 | h2
      · exact Or.inr (h2 ▸ List.mem_cons_self d rest)
      · rcases ih h2 with h3 | h3
        · exact Or.inl h3
        · exact Or.inr (List.mem_cons_of_mem d h3)

theorem collapseRunsAux_true_head {p : Char → Bool} (r : Char) {l : List Char}
    {c : Char}
    (h : (collapseRunsAux p r true l).head? = some c) : p c = false := by
  induction l with
  | nil => simp [collapseRunsAux] at h
  | cons d rest ih =>
    by_cases hd : p d = true
    · simp only [collapseRunsAux, hd, if_true] at h
      exact ih h
    · simp only [collapseRunsAux, hd, if_false, Bool.false_eq_true,
        List.head?_cons, Option.some_inj] at h
      rw [← h]
      simpa using hd

theorem chain'_collapseRunsAux (p : Char → Bool) (r : Char) (l : List Char)
    (b : Bool) :
    List.Chain' (fun a c => ¬(p a = true ∧ p c = true))
      (collapseRunsAux p r b l) := by
  induction l generalizing b with
  | nil => simp [collapseRunsAux]
  | cons d rest ih =>
    by_cases hd : p d = true
    · cases b with
      | true => simpa [collapseRunsAux, hd] using ih true
      | false =>
        simp only [collapseRunsAux, hd, if_true, Bool.false_eq_true, if_false]
        rw [List.chain'_cons']
        refine ⟨?_, ih true⟩
        intro y hy
        have hpy : p y = false :=
          collapseRunsAux_true_head r (by simpa using hy)
        intro hcon
        rw [hcon.2] at hpy
        exact absurd hpy (by simp)
    · simp only [collapseRunsAux, hd, if_false, Bool.false_eq_true]
      rw [List.chain'_cons']
      refine ⟨?_, ih false⟩
      intro y hy hcon
      rw [hcon.1] at hd
      exact hd rfl

theorem collapseRunsAux_true_eq_false {p : Char → Bool} {r : Char}
    {l : List Char}
    (h : ∀ c, l.head? = some c → p c = false) :
    collapseRunsAux p r true l = collapseRunsAux p r false l := by
  cases l with
  | nil => rfl
  | cons c rest => simp [collapseRunsAux, h c rfl]

theorem collapseRuns_eq_self_of_chain (p : Char → Bool) (r : Char)
    (l : List Char)
    (hpr : ∀ c ∈ l, p c = true → c = r)
    (hc : List.Chain' (fun a c => ¬(p a = true ∧ p c = true)) l) :
    collapseRuns p r l = l := by
  unfold collapseRuns
  induction l with
  | nil => rfl
  | cons c rest ih =>
    by_cases hcp : p c = true
    · have hcr : c = r := hpr c (List.mem_cons_self c rest) hcp
      have hhead : ∀ d, rest.head? = some d → p d = false := by
        intro d hd
        have hrel := (List.chain'_cons'.mp hc).1 d (by simp [hd])
        cases hpd : p d with
        | false => rfl
        | true => exact absurd ⟨hcp, hpd⟩ hrel
      simp only [collapseRunsAux, hcp, if_true, Bool.false_eq_true, if_false]
      rw [collapseRunsAux_true_eq_false hhead,
        ih (fun d hd hpd => hpr d (List.mem_cons_of_mem c hd) hpd) hc.tail, ← hcr]
    · simp only [collapseRunsAux, hcp, if_false, Bool.false_eq_true]
      rw [ih (fun d hd hpd => hpr d (List.mem_cons_of_mem c hd) hpd) hc.tail]

theorem chain'_strip {R : Char → Char → Prop}
    (hsymm : ∀ a b, R a b → R b a)
    {p : Char → Bool} {l : List Char} (h : List.Chain' R l) :
    List.Chain' R (strip p l) := by
  unfold strip
  have h1 : List.Chain' R (l.dropWhile p) := h.suffix (List.dropWhile_suffix p)
  have h2 : List.Chain' R (l.dropWhile p).reverse :=
    List.chain'_reverse.mpr (h1.imp (fun _ _ hab => hsymm _ _ hab))
  have h3 : List.Chain' R ((l.dropWhile p).reverse.dropWhile p) :=
    h2.suffix (List.dropWhile_suffix p)
  exact List.chain'_reverse.mpr (h3.imp (fun _ _ hab => hsymm _ _ hab))

theorem head?_dropWhile_false {p : Char → Bool} {l : List Char} {c : Char}
    (h : (l.dropWhile p).head? = some c) : p c = false := by
  induction l with
  | nil => simp at h
  | cons d rest ih =>
    by_cases hd : p d = true
    · rw [List.dropWhile_cons, if_pos hd] at h
      exact ih h
    · rw [List.dropWhile_cons, if_neg hd] at h
      simp only [List.head?_cons, Option.some_inj] at h
      rw [← h]
      simpa using hd

theorem strip_getLast?_false {p : Char → Bool} {l : List Char} {c : Char}
    (h : (strip p l).getLast? = some c) : p c = false := by
  unfold strip at h
  rw [List.getLast?_reverse] at h
  exact head?_dropWhile_false h

theorem mem_collapseRuns {p : Char → Bool} {r : Char} {l : List Char} {c : Char}
    (h : c ∈ collapseRuns p r l) : c = r ∨ c ∈ l := by
  unfold collapseRuns at h
  exact mem_collapseRunsAux h

theorem chain'_collapseRuns (p : Char → Bool) (r : Char) (l : List Char) :
    List.Chain' (fun a c => ¬(p a = true ∧ p c = true)) (collapseRuns p r l) := by
  unfold collapseRuns
  exact chain'_collapseRunsAux p r l false

theorem collapseRuns_eq_self_of_all {p : Char → Bool} {r : Char} {l : List Char}
    (h : ∀ c ∈ l, p c = false) : collapseRuns p r l = l := by
  unfold collapseRuns
  exact collapseRunsAux_eq_self h false

theorem strip_eq_self_of_ends {p : Char → Bool} {l : List Char}
    (hh : ∀ c, l.head? = some c → p c = false)
    (hl : ∀ c, l.getLast? = some c → p c = false) :
    strip p l = l := by
  unfold strip
  rw [dropWhile_eq_self_of_head hh]
  have h2 : l.reverse.dropWhile p = l.reverse := by
    apply dropWhile_eq_self_of_head
    intro c hc
    rw [List.head?_reverse] at hc
    exact hl c hc
  rw [h2, List.reverse_reverse]

theorem strip_head?_false {p : Char → Bool} {l : List Char} {c : Char}
    (h : (strip p l).head? = some c) : p c = false := by
  unfold strip at h
  rw [List.head?_reverse] at h
  have hbne : (l.dropWhile p).reverse.dropWhile p ≠ [] := by
    intro he
    rw [he] at h
    simp at h
  obtain ⟨t, ht⟩ := @List.dropWhile_suffix _ ((l.dropWhile p).reverse) p
  have h2 : ((l.dropWhile p).reverse).getLast? = some c := by
    rw [← ht, List.getLast?_append_of_ne_nil t hbne]
    exact h
  rw [List.getLast?_reverse] at h2
  exact head?_dropWhile_false h2

end PyStr

namespace Crawler

theorem flat_profile_eq_folds (fields : List Field) (groups : List Group) :
    flat_profile fields groups = groupsFold (profFold [] fields) groups := rfl

theorem lookupL_profFold (fields : List Field) (m : List (String × String))
    (k : String) :
    PyStr.lookupL (profFold m fields) k =
      match lastVal fields k with
      | some v => some v
      | none => PyStr.lookupL m k := by
  induction fields generalizing m with
  | nil => simp [profFold, lastVal]
  | cons kv rest ih =>
    simp only [profFold, List.foldl_cons]
    rw [show (rest.foldl
      (fun m kv => if validPair kv then PyStr.dictInsert m kv.label kv.value else m)
      (if validPair kv then PyStr.dictInsert m kv.label kv.value else m)) =
      profFold (if validPair kv then PyStr.dictInsert m kv.label kv.value else m) rest
      from rfl]
    rw [ih]
    cases h : lastVal rest k with
    | some v => simp [lastVal, h]
    | none =>
      simp only [lastVal, h]
      by_cases hv : validPair kv = true
      · simp only [hv, if_true]
        by_cases hl : kv.label = k
        · simp [PyStr.lookupL_dictInsert, hl, hv]
        · rw [PyStr.lookupL_dictInsert]
          simp [hl, hv]
      · simp [hv]

theorem lookupL_groupFieldsFold (fs : List Field) (m : List (String × String))
    (k : String) :
    PyStr.lookupL (groupFieldsFold m fs) k =
      match PyStr.lookupL m k with
      | some v => some v
      | none => firstVal fs k := by
  induction fs generalizing m with
  | nil => cases h : PyStr.lookupL m k <;> simp [groupFieldsFold, firstVal, h]
  | cons kv rest ih =>
    simp only [groupFieldsFold, List.foldl_cons]
    rw [show (rest.foldl
      (fun m kv => if validPair kv && !PyStr.containsKeyB m kv.label then
        m ++ [(kv.label, kv.value)] else m)
      (if validPair kv && !PyStr.containsKeyB m kv.label then
        m ++ [(kv.label, kv.value)] else m)) =
      groupFieldsFold (if validPair kv && !PyStr.containsKeyB m kv.label then
        m ++ [(kv.label, kv.value)] else m) rest from rfl]
    rw [ih]
    by_cases hcond : (validPair kv && !PyStr.containsKeyB m kv.label) = true
    · have hv : validPair kv = true := by
        simpa using (Bool.and_eq_true_iff.mp hcond).1
      have hnc : PyStr.containsKeyB m kv.label = false := by
        have := (Bool.and_eq_true_iff.mp hcond).2
        simpa using this
      have hnone : PyStr.lookupL m kv.label = none := by
        have := PyStr.containsKeyB_eq_isSome m kv.label
        rw [hnc] at this
        cases h : PyStr.lookupL m kv.label with
        | none => rfl
        | some w => rw [h] at this; simp at this
      simp only [hcond, if_true, PyStr.lookupL_append]
      by_cases hl : kv.label = k
      · subst hl
        simp [hnone, PyStr.lookupL, firstVal, hv]
      · cases h2 : PyStr.lookupL m k with
        | some w => simp [h2, PyStr.lookupL]
        | none =>
          have hnot : ¬(validPair kv = true ∧ kv.label = k) := fun hh => hl hh.2
          simp [h2, PyStr.lookupL, hl, firstVal, hnot]
    · simp only [hcond, if_false, Bool.false_eq_true]
      cases h2 : PyStr.lookupL m k with
      | some w => simp [h2]
      | none =>
        simp only [h2]
        by_cases hv : validPair kv = true
        · have hc : PyStr.containsKeyB m kv.label = true := by
            cases hcc : PyStr.containsKeyB m kv.label with
            | true => rfl
            | false => exfalso; apply hcond; simp [hv, hcc]
          by_cases hl : kv.label = k
          · exfalso
            subst hl
            have := PyStr.containsKeyB_eq_isSome m kv.label
            rw [hc, h2] at this
            simp at this
          · have hnot : ¬(validPair kv = true ∧ kv.label = k) := fun hh => hl hh.2
            simp [firstVal, hnot]
        · have hnot : ¬(validPair kv = true ∧ kv.label = k) := fun hh => hv hh.1
          simp [firstVal, hnot]

theorem firstVal_append (a b : List Field) (k : String) :
    firstVal (a ++ b) k =
      match firstVal a k with
      | some v => some v
      | none => firstVal b k := by
  induction a with
  | nil => simp [firstVal]
  | cons kv rest ih =>
    simp only [List.cons_append, firstVal]
    by_cases h : validPair kv ∧ kv.label = k <;> simp [h, ih]

theorem lookupL_groupsFold (gs : List Group) (m : List (String × String))
    (k : String) :
    PyStr.lookupL (groupsFold m gs) k =
      match PyStr.lookupL m k with
      | some v => some v
      | none => firstVal (gs.flatMap (fun g => g.fields)) k := by
  induction gs generalizing m with
  | nil => cases h : PyStr.lookupL m k <;> simp [groupsFold, firstVal, h]
  | cons g rest ih =>
    simp only [groupsFold, List.foldl_cons]
    rw [show (rest.foldl (fun m g => groupFieldsFold m g.fields)
      (groupFieldsFold m g.fields)) = groupsFold (groupFieldsFold m g.fields) rest
      from rfl]
    rw [ih, lookupL_groupFieldsFold, List.flatMap_cons, firstVal_append]
    cases h : PyStr.lookupL m k with
    | some v => simp
    | none => cases h2 : firstVal g.fields k <;> simp [h2]

end Crawler

/-- C1 (counterexample): with a duplicated label inside the ungrouped
`profile` fields — `fields = [{A,1},{A,2}]`, no groups — `flat_profile`
holds the value `"2"` of the *last* occurrence, not the value `"1"` of the
first occurrence as the claim states. -/
theorem c1_flat_profile_counterexample :
    PyStr.lookupL (Crawler.flat_profile
      [⟨"A", "1"⟩, ⟨"A", "2"⟩] []) "A" = some "2" ∧ ("2" : String) ≠ "1" := by
  constructor
  · rfl
  · decide

/-- C1 (amended): `flat_profile` maps a label `k` to the value of its
*last* valid occurrence among the ungrouped `profile` fields when `k`
occurs there, and otherwise to the value of its *first* valid occurrence
among the `profile_groups` fields in document order; a group field never
overrides an entry already present (first-seen-wins holds across
`profile` → `profile_groups` and among groups, but duplicates within the
ungrouped `profile` are last-seen-wins). -/
theorem c1_flat_profile_amended (fields : List Crawler.Field)
    (groups : List Crawler.Group) (k : String) :
    PyStr.lookupL (Crawler.flat_profile fields groups) k =
      match Crawler.lastVal fields k with
      | some v => some v
      | none => Crawler.firstVal (groups.flatMap (fun g => g.fields)) k := by
  rw [Crawler.flat_profile_eq_folds, Crawler.lookupL_groupsFold,
    Crawler.lookupL_profFold]
  cases h : Crawler.lastVal fields k with
  | some v => simp
  | none => simp [PyStr.lookupL]

namespace Crawler

theorem slug_toNat {c : Char} (h : isSlugChar c = true) :
    (97 ≤ c.toNat ∧ c.toNat ≤ 122) ∨ (48 ≤ c.toNat ∧ c.toNat ≤ 57) ∨ c = '-' := by
  simpa [isSlugChar, Bool.or_eq_true, Bool.and_eq_true, decide_eq_true_eq,
    or_assoc] using h

theorem slug_ne_char {c : Char} (h : isSlugChar c = true) (d : Char)
    (hd : isSlugChar d = false) : c ≠ d := by
  intro he
  rw [he] at h
  rw [hd] at h
  exact absurd h (by simp)

theorem slug_pyLower {c : Char} (h : isSlugChar c = true) : pyLower c = c := by
  rcases slug_toNat h with h1 | h1 | h1
  · unfold pyLower
    rw [if_neg (by omega)]
  · unfold pyLower
    rw [if_neg (by omega)]
  · subst h1
    decide

theorem slug_not_ws {c : Char} (h : isSlugChar c = true) : PyStr.isWs c = false := by
  have h1 := slug_ne_char h ' ' (by decide)
  have h2 := slug_ne_char h '\t' (by decide)
  have h3 := slug_ne_char h '\n' (by decide)
  have h4 := slug_ne_char h '\r' (by decide)
  have h5 := slug_ne_char h '\x0b' (by decide)
  have h6 := slug_ne_char h '\x0c' (by decide)
  simp [PyStr.isWs, h1, h2, h3, h4, h5, h6]

theorem slugify_s7_all (w : List Char) :
    ∀ c ∈ PyStr.strip (fun c => c = '-')
        (PyStr.collapseRuns (fun c => c = '-') '-'
          (w.map (fun c => if isSlugChar c then c else '-'))),
      isSlugChar c = true := by
  intro c hc
  have h1 := PyStr.mem_strip hc
  rcases PyStr.mem_collapseRuns h1 with h2 | h2
  · subst h2
    decide
  · rcases List.mem_map.mp h2 with ⟨d, _, hd⟩
    by_cases hsd : isSlugChar d = true
    · rw [← hd, if_pos hsd]
      exact hsd
    · rw [← hd, if_neg hsd]
      decide

theorem slugifyL_shape (l : List Char) :
    ∃ w : List Char, slugifyL l =
      PyStr.strip (fun c => c = '-')
        (PyStr.collapseRuns (fun c => c = '-') '-'
          (w.map (fun c => if isSlugChar c then c else '-'))) := by
  refine ⟨PyStr.collapseRuns (fun c => PyStr.isWs c || c = '_') '-'
      (((((PyStr.strip PyStr.isWs l).map pyLower).flatMap
        (fun c => if c = '&' then ['a', 'n', 'd'] else [c])).map
        (fun c => if c = '’' then '\'' else c)).filter
        (fun c => !(c = '"' || c = '“' || c = '”'))), ?_⟩
  show (PyStr.strip (fun c => c = '-') _).filter isSlugChar = _
  rw [List.filter_eq_self.mpr (slugify_s7_all _)]

theorem slugifyL_all_slug (l : List Char) :
    ∀ c ∈ slugifyL l, isSlugChar c = true := by
  obtain ⟨w, hw⟩ := slugifyL_shape l
  rw [hw]
  exact slugify_s7_all w

theorem slugifyL_chain (l : List Char) :
    List.Chain' (fun a c =>
      ¬(decide (a = '-') = true ∧ decide (c = '-') = true)) (slugifyL l) := by
  obtain ⟨w, hw⟩ := slugifyL_shape l
  rw [hw]
  apply PyStr.chain'_strip
  · intro a b hab hcon
    exact hab ⟨hcon.2, hcon.1⟩
  · exact PyStr.chain'_collapseRuns _ '-' _

theorem slugifyL_head (l : List Char) :
    ∀ c, (slugifyL l).head? = some c → c ≠ '-' := by
  obtain ⟨w, hw⟩ := slugifyL_shape l
  rw [hw]
  intro c hc
  have := PyStr.strip_head?_false hc
  simpa using this

theorem slugifyL_last (l : List Char) :
    ∀ c, (slugifyL l).getLast? = some c → c ≠ '-' := by
  obtain ⟨w, hw⟩ := slugifyL_shape l
  rw [hw]
  intro c hc
  have := PyStr.strip_getLast?_false hc
  simpa using this

theorem slugifyL_eq_self (v : List Char)
    (hall : ∀ c ∈ v, isSlugChar c = true)
    (hchain : List.Chain' (fun a c =>
      ¬(decide (a = '-') = true ∧ decide (c = '-') = true)) v)
    (hhead : ∀ c, v.head? = some c → c ≠ '-')
    (hlast : ∀ c, v.getLast? = some c → c ≠ '-') :
    slugifyL v = v := by
  show ((PyStr.strip (fun c => c = '-')
      (PyStr.collapseRuns (fun c => c = '-') '-'
        ((PyStr.collapseRuns (fun c => PyStr.isWs c || c = '_') '-'
          (((((PyStr.strip PyStr.isWs v).map pyLower).flatMap
            (fun c => if c = '&' then ['a', 'n', 'd'] else [c])).map
            (fun c => if c = '’' then '\'' else c)).filter
            (fun c => !(c = '"' || c = '“' || c = '”')))).map
          (fun c => if isSlugChar c then c else '-')))).filter isSlugChar) = v
  have e1 : PyStr.strip PyStr.isWs v = v :=
    PyStr.strip_eq_self_of_all (fun c hc => slug_not_ws (hall c hc))
  have e2 : v.map pyLower = v :=
    PyStr.map_eq_self_of (fun c hc => slug_pyLower (hall c hc))
  have e3 : v.flatMap (fun c => if c = '&' then ['a', 'n', 'd'] else [c]) = v :=
    PyStr.flatMap_eq_self_of (fun c hc => by
      rw [if_neg (slug_ne_char (hall c hc) '&' (by decide))])
  have e4 : v.map (fun c => if c = '’' then '\'' else c) = v :=
    PyStr.map_eq_self_of (fun c hc => by
      rw [if_neg (slug_ne_char (hall c hc) '’' (by decide))])
  have e5 : v.filter (fun c => !(c = '"' || c = '“' || c = '”')) = v :=
    List.filter_eq_self.mpr (fun c hc => by
      have h1 := slug_ne_char (hall c hc) '"' (by decide)
      have h2 := slug_ne_char (hall c hc) '“' (by decide)
      have h3 := slug_ne_char (hall c hc) '”' (by decide)
      simp [h1, h2, h3])
  have e6 : PyStr.collapseRuns (fun c => PyStr.isWs c || c = '_') '-' v = v :=
    PyStr.collapseRuns_eq_self_of_all (fun c hc => by
      have h1 := slug_not_ws (hall c hc)
      have h2 := slug_ne_char (hall c hc) '_' (by decide)
      simp [h1, h2])
  have e7 : v.map (fun c => if isSlugChar c then c else '-') = v :=
    PyStr.map_eq_self_of (fun c hc => by rw [if_pos (hall c hc)])
  have e8 : PyStr.collapseRuns (fun c => c = '-') '-' v = v :=
    PyStr.collapseRuns_eq_self_of_chain _ '-' v
      (fun c _ hc => by simpa using hc) hchain
  have e9 : PyStr.strip (fun c => c = '-') v = v :=
    PyStr.strip_eq_self_of_ends
      (fun c hc => by simpa using hhead c hc)
      (fun c hc => by simpa using hlast c hc)
  have e10 : v.filter isSlugChar = v := List.filter_eq_self.mpr hall
  rw [e1, e2, e3, e4, e5, e6, e7, e8, e9, e10]

end Crawler

namespace Crawler

theorem slugify_mk (r : List Char) (hr : ¬ r.isEmpty = true)
    (hfix : slugifyL r = r) : slugify (String.mk r) = String.mk r := by
  unfold slugify
  rw [show (String.mk r).toList = r from rfl, hfix, if_neg hr]

theorem slugify_slugify (s : String) : slugify (slugify s) = slugify s := by
  by_cases hr : (slugifyL s.toList).isEmpty = true
  · have h1 : slugify s = "item" := by
      unfold slugify
      rw [if_pos hr]
    rw [h1]
    decide
  · have h1 : slugify s = String.mk (slugifyL s.toList) := by
      unfold slugify
      rw [if_neg hr]
    have hfix : slugifyL (slugifyL s.toList) = slugifyL s.toList :=
      slugifyL_eq_self _ (slugifyL_all_slug s.toList) (slugifyL_chain s.toList)
        (slugifyL_head s.toList) (slugifyL_last s.toList)
    rw [h1]
    exact slugify_mk _ hr hfix

end Crawler

/-- C7: id generation is idempotent — `slugify (slugify s) = slugify s`
for every string `s` — and satisfies the stated examples:
`slugify "Mayor Goodway" = "mayor-goodway"`, `slugify "" = "item"` (the
fixed placeholder id), and `slugify "Chase & Marshall" =
"chase-and-marshall"` (`&` folded to `and`). -/
theorem c7_slugify_idempotent_and_examples :
    (∀ s : String, Crawler.slugify (Crawler.slugify s) = Crawler.slugify s) ∧
    Crawler.slugify "Mayor Goodway" = "mayor-goodway" ∧
    Crawler.slugify "" = "item" ∧
    Crawler.slugify "Chase & Marshall" = "chase-and-marshall" :=
  ⟨Crawler.slugify_slugify, by decide, by decide, by decide⟩

namespace Crawler

theorem extractFields_valid (items : List RawItem) :
    ∀ f ∈ extractFields items, validPair f = true := by
  intro f hf
  rcases List.mem_filterMap.mp hf with ⟨it, _, hit⟩
  cases hle : it.labelEl with
  | none =>
    rw [hle] at hit
    simp at hit
  | some lt =>
    cases hve : it.valueEl with
    | none =>
      rw [hle, hve] at hit
      simp at hit
    | some vt =>
      rw [hle, hve] at hit
      dsimp only at hit
      by_cases hg : clean_text lt ≠ "" ∧ clean_text vt ≠ ""
      · rw [if_pos hg] at hit
        injection hit with hh
        rw [← hh]
        simp [validPair, hg.1, hg.2]
      · rw [if_neg hg] at hit
        exact absurd hit (by simp)

end Crawler

/-- C6: the Infobox Normalizer never emits a blank pair — for every raw
infobox input, every pair in the returned `fields` list and in every
`groups[*].fields` list has both its (cleaned) label and value nonempty,
because a pair is appended only under the guard `label and value` after
`clean_text` whitespace normalization and reference-marker stripping. -/
theorem c6_normalizer_no_blank_pairs (rb : Crawler.RawInfobox) :
    (Crawler.parse_portable_infobox rb).fields.all Crawler.validPair = true ∧
    (Crawler.parse_portable_infobox rb).groups.all
      (fun g => g.fields.all Crawler.validPair) = true := by
  unfold Crawler.parse_portable_infobox
  by_cases hp : rb.present = true
  · rw [if_pos hp]
    constructor
    · exact List.all_eq_true.mpr (fun f hf => Crawler.extractFields_valid rb.items f hf)
    · apply List.all_eq_true.mpr
      intro g hg
      rcases List.mem_filterMap.mp hg with ⟨gr, _, hgr⟩
      dsimp only at hgr
      by_cases hcnd : (match gr.header with
          | some h => Crawler.clean_text h
          | none => "") ≠ "" ∨ Crawler.extractFields gr.items ≠ []
      · rw [if_pos hcnd] at hgr
        injection hgr with hh
        rw [← hh]
        exact List.all_eq_true.mpr
          (fun f hf => Crawler.extractFields_valid gr.items f hf)
      · rw [if_neg hcnd] at hgr
        exact absurd hgr (by simp)
  · rw [if_neg hp]
    exact ⟨rfl, rfl⟩

namespace Server

theorem lexLe_total (a b : List Char) : lexLe a b = true ∨ lexLe b a = true := by
  induction a generalizing b with
  | nil => left; rfl
  | cons x xs ih =>
    cases b with
    | nil => right; rfl
    | cons y ys =>
      by_cases hxy : x.toNat = y.toNat
      · rcases ih ys with h | h
        · left
          simp [lexLe, hxy, h]
        · right
          simp [lexLe, hxy.symm, h]
      · by_cases hlt : x.toNat < y.toNat
        · left
          simp [lexLe, hxy, hlt]
        · right
          have hgt : y.toNat < x.toNat := by omega
          simp [lexLe, Ne.symm hxy, hgt]

theorem lexLe_trans {a b c : List Char} (h1 : lexLe a b = true)
    (h2 : lexLe b c = true) : lexLe a c = true := by
  induction a generalizing b c with
  | nil => rfl
  | cons x xs ih =>
    cases b with
    | nil => simp [lexLe] at h1
    | cons y ys =>
      cases c with
      | nil => simp [lexLe] at h2
      | cons z zs =>
        simp only [lexLe] at h1 h2 ⊢
        by_cases hxy : x.toNat = y.toNat
        · rw [if_pos hxy] at h1
          by_cases hyz : y.toNat = z.toNat
          · rw [if_pos hyz] at h2
            rw [if_pos (hxy.trans hyz)]
            exact ih h1 h2
          · rw [if_neg hyz] at h2
            have hlt : y.toNat < z.toNat := of_decide_eq_true h2
            rw [if_neg (by omega : ¬x.toNat = z.toNat)]
            exact decide_eq_true (by omega)
        · rw [if_neg hxy] at h1
          have hlt : x.toNat < y.toNat := of_decide_eq_true h1
          by_cases hyz : y.toNat = z.toNat
          · rw [if_neg (by omega : ¬x.toNat = z.toNat)]
            exact decide_eq_true (by omega)
          · rw [if_neg hyz] at h2
            have hlt2 : y.toNat < z.toNat := of_decide_eq_true h2
            rw [if_neg (by omega : ¬x.toNat = z.toNat)]
            exact decide_eq_true (by omega)

theorem mem_load_dataset {chars : List CharRec} {o : ServedChar}
    (h : o ∈ (load_dataset chars).1) :
    ∃ ch ∈ chars, servedPred ch = true ∧ o = toObj ch := by
  unfold load_dataset at h
  have h2 := (List.perm_insertionSort
    (fun a b => nameLe a b = true) ((chars.filter servedPred).map toObj)).mem_iff.mp h
  rcases List.mem_map.mp h2 with ⟨ch, hmem, heq⟩
  have h3 := List.mem_filter.mp hmem
  exact ⟨ch, h3.1, h3.2, heq.symm⟩

theorem containsKeyB_dictInsert {β : Type} (m : List (String × β))
    (k k2 : String) (v : β) :
    PyStr.containsKeyB (PyStr.dictInsert m k v) k2 =
      (PyStr.containsKeyB m k2 || k = k2) := by
  rw [PyStr.containsKeyB_eq_isSome, PyStr.lookupL_dictInsert,
    PyStr.containsKeyB_eq_isSome]
  by_cases hk : k = k2 <;> simp [hk]

theorem containsKeyB_byId (objs : List ServedChar)
    (m : List (String × ServedChar)) (cid : String) :
    PyStr.containsKeyB (objs.foldl (fun m o => PyStr.dictInsert m o.id o) m) cid =
      (PyStr.containsKeyB m cid || objs.any (fun o => o.id = cid)) := by
  induction objs generalizing m with
  | nil => simp
  | cons o rest ih =>
    simp only [List.foldl_cons, List.any_cons]
    rw [ih, containsKeyB_dictInsert]
    by_cases h : o.id = cid <;> simp [h, Bool.or_comm, Bool.or_assoc, Bool.or_left_comm]

theorem lookupL_byId_none_iff (chars : List CharRec) (cid : String) :
    PyStr.lookupL (load_dataset chars).2 cid = none ↔
      ¬∃ o ∈ (load_dataset chars).1, o.id = cid := by
  have hps := (List.perm_insertionSort
    (fun a b => nameLe a b = true) ((chars.filter servedPred).map toObj))
  have hck : PyStr.containsKeyB (load_dataset chars).2 cid =
      ((chars.filter servedPred).map toObj).any (fun o => o.id = cid) := by
    unfold load_dataset
    rw [containsKeyB_byId]
    simp [PyStr.containsKeyB]
  constructor
  · intro hnone hex
    rcases hex with ⟨o, ho, hid⟩
    have hmem : o ∈ (chars.filter servedPred).map toObj := hps.mem_iff.mp ho
    have : ((chars.filter servedPred).map toObj).any (fun o => o.id = cid) = true :=
      List.any_eq_true.mpr ⟨o, hmem, by simp [hid]⟩
    rw [← hck, PyStr.containsKeyB_eq_isSome, hnone] at this
    simp at this
  · intro hnex
    cases hl : PyStr.lookupL (load_dataset chars).2 cid with
    | none => rfl
    | some w =>
      exfalso
      have : PyStr.containsKeyB (load_dataset chars).2 cid = true := by
        rw [PyStr.containsKeyB_eq_isSome, hl]
        rfl
      rw [hck] at this
      rcases List.any_eq_true.mp this with ⟨o, hmem, hid⟩
      exact hnex ⟨o, hps.mem_iff.mpr hmem, by simpa using hid⟩

end Server

/-- C10 (implicit): `load_dataset` sorts the retained records by the
lowercased character name in ascending lexicographic (code-point) order,
for every stored record list regardless of its order, and the
`/api/characters` listing — a field-wise projection of the same sequence —
preserves that order (the gallery iterates the same sequence). -/
theorem c10_served_view_sorted_by_lower_name (chars : List Server.CharRec) :
    List.Pairwise (fun a b => Server.nameLe a b = true)
      (Server.load_dataset chars).1 ∧
    Server.api_characters chars = (Server.load_dataset chars).1.map Server.toApi ∧
    List.Pairwise (fun a b : Server.ApiChar =>
      Server.lexLe (Server.lowerL a.name.toList) (Server.lowerL b.name.toList)
        = true)
      (Server.api_characters chars) := by
  haveI hto : IsTotal Server.ServedChar (fun a b => Server.nameLe a b = true) :=
    ⟨fun a b => Server.lexLe_total _ _⟩
  haveI htr : IsTrans Server.ServedChar (fun a b => Server.nameLe a b = true) :=
    ⟨fun a b c h1 h2 => Server.lexLe_trans h1 h2⟩
  have hs : List.Pairwise (fun a b => Server.nameLe a b = true)
      (Server.load_dataset chars).1 :=
    List.sorted_insertionSort (fun a b => Server.nameLe a b = true)
      ((chars.filter Server.servedPred).map Server.toObj)
  refine ⟨hs, rfl, ?_⟩
  unfold Server.api_characters
  rw [List.pairwise_map]
  exact hs.imp (fun hab => hab)

namespace Server

theorem safe_realpath_none_iff (realpath : String → String)
    (base_dir rel_path : String) :
    safe_realpath realpath base_dir rel_path = none ↔
      (¬ PyStr.startswith (realpath (ospath_join (realpath base_dir) rel_path))
          (realpath base_dir ++ "/") = true ∧
        realpath (ospath_join (realpath base_dir) rel_path) ≠ realpath base_dir) := by
  unfold safe_realpath
  by_cases hg : ¬ PyStr.startswith
        (realpath (ospath_join (realpath base_dir) rel_path))
        (realpath base_dir ++ "/") = true ∧
      realpath (ospath_join (realpath base_dir) rel_path) ≠ realpath base_dir
  · rw [if_pos hg]
    simp [hg]
  · rw [if_neg hg]
    constructor
    · intro h
      exact absurd h (by simp)
    · intro hcon
      exact absurd hcon hg

theorem safe_realpath_some (realpath : String → String)
    (base_dir rel_path : String) {c : String}
    (h : safe_realpath realpath base_dir rel_path = some c) :
    c = realpath (ospath_join (realpath base_dir) rel_path) ∧
      (PyStr.startswith (realpath (ospath_join (realpath base_dir) rel_path))
          (realpath base_dir ++ "/") = true ∨
        realpath (ospath_join (realpath base_dir) rel_path) = realpath base_dir) := by
  unfold safe_realpath at h
  by_cases hg : ¬ PyStr.startswith
        (realpath (ospath_join (realpath base_dir) rel_path))
        (realpath base_dir ++ "/") = true ∧
      realpath (ospath_join (realpath base_dir) rel_path) ≠ realpath base_dir
  · rw [if_pos hg] at h
    exact absurd h (by simp)
  · rw [if_neg hg] at h
    constructor
    · exact (Option.some_inj.mp h).symm
    · rcases not_and_or.mp hg with hg1 | hg2
      · left
        cases hs : PyStr.startswith
            (realpath (ospath_join (realpath base_dir) rel_path))
            (realpath base_dir ++ "/") with
        | true => rfl
        | false => exact absurd (by simp [hs]) (fun hh => hg1 hh)
      · right
        exact not_not.mp hg2

end Server

/-- C3: with the configured base directory resolving to a directory (so
`os.path.isfile` on it is false), every `/media` response is 200 or 404;
a 404 carries the fixed body `"not found"` and serves no path (no 500,
no filesystem path leaked); a path that does not start with `images/`
after stripping leading slashes is answered 404; a path whose resolved
candidate is not strictly under the resolved base is answered 404; and a
200 response serves exactly a file strictly under the resolved base. -/
theorem c3_media_traversal_guard (realpath : String → String)
    (existsF isfileF : String → Bool) (base_dir : String) (maxAge : Nat)
    (relpath : String)
    (hdir : isfileF (realpath base_dir) = false) :
    ((Server.media realpath existsF isfileF base_dir maxAge relpath).status = 200 ∨
      (Server.media realpath existsF isfileF base_dir maxAge relpath).status = 404) ∧
    ((Server.media realpath existsF isfileF base_dir maxAge relpath).status = 404 →
      (Server.media realpath existsF isfileF base_dir maxAge relpath).body =
          "not found" ∧
        (Server.media realpath existsF isfileF base_dir maxAge relpath).served =
          none) ∧
    (PyStr.startswith (String.mk (PyStr.lstrip (fun c => c = '/') relpath.toList))
        "images/" = false →
      (Server.media realpath existsF isfileF base_dir maxAge relpath).status = 404) ∧
    (PyStr.startswith
        (realpath (Server.ospath_join (realpath base_dir)
          (String.mk (PyStr.lstrip (fun c => c = '/') relpath.toList))))
        (realpath base_dir ++ "/") = false →
      (Server.media realpath existsF isfileF base_dir maxAge relpath).status = 404) ∧
    ((Server.media realpath existsF isfileF base_dir maxAge relpath).status = 200 →
      ∃ f, (Server.media realpath existsF isfileF base_dir maxAge relpath).served =
          some f ∧
        PyStr.startswith f (realpath base_dir ++ "/") = true) := by
  unfold Server.media
  by_cases h1 : PyStr.startswith
      (String.mk (PyStr.lstrip (fun c => c = '/') relpath.toList)) "images/" = true
  · rw [if_neg (fun hC => hC h1)]
    cases hsr : Server.safe_realpath realpath base_dir
        (String.mk (PyStr.lstrip (fun c => c = '/') relpath.toList)) with
    | none =>
      have hesc := (Server.safe_realpath_none_iff realpath base_dir
        (String.mk (PyStr.lstrip (fun c => c = '/') relpath.toList))).mp hsr
      refine ⟨Or.inr rfl, fun _ => ⟨rfl, rfl⟩, fun hc => rfl, fun _ => rfl, ?_⟩
      intro h200
      exact absurd h200 (by simp)
    | some c =>
      obtain ⟨hc, hcase⟩ := Server.safe_realpath_some realpath base_dir
        (String.mk (PyStr.lstrip (fun c => c = '/') relpath.toList)) hsr
      dsimp only
      by_cases h3 : (existsF c && isfileF c) = true
      · rw [if_pos h3]
        have hstrict : PyStr.startswith c (realpath base_dir ++ "/") = true := by
          rcases hcase with hgood | hbase
          · rw [hc]
            exact hgood
          · exfalso
            have hfile : isfileF c = true := (Bool.and_eq_true_iff.mp h3).2
            rw [hc, hbase] at hfile
            rw [hdir] at hfile
            exact absurd hfile (by simp)
        refine ⟨Or.inl rfl, ?_, ?_, ?_, ?_⟩
        · intro h404
          exact absurd h404 (by simp)
        · intro hcon
          rw [h1] at hcon
          exact absurd hcon (by simp)
        · intro hesc
          rw [← hc, hstrict] at hesc
          exact absurd hesc (by simp)
        · intro _
          exact ⟨c, rfl, hstrict⟩
      · rw [if_neg h3]
        refine ⟨Or.inr rfl, fun _ => ⟨rfl, rfl⟩, fun _ => rfl, fun _ => rfl, ?_⟩
        intro h200
        exact absurd h200 (by simp)
  · rw [if_pos h1]
    refine ⟨Or.inr rfl, fun _ => ⟨rfl, rfl⟩, fun _ => rfl, fun _ => rfl, ?_⟩
    intro h200
    exact absurd h200 (by simp)

/-- C3 witness: identity `realpath`, base `"base"`, request
`"images/a.png"`, a filesystem on which exactly `"base/images/a.png"` is
a regular file; the hypothesis (the base is not a regular file) holds and
the theorem applies. -/
theorem c3_media_traversal_guard_witness :
    (fun s => decide (s = "base/images/a.png")) ((fun s : String => s) "base")
        = false ∧
    ((Server.media (fun s => s) (fun _ => true)
        (fun s => decide (s = "base/images/a.png")) "base" 0
        "images/a.png").status = 200 ∨
      (Server.media (fun s => s) (fun _ => true)
        (fun s => decide (s = "base/images/a.png")) "base" 0
        "images/a.png").status = 404) :=
  ⟨by decide,
    (c3_media_traversal_guard (fun s => s) (fun _ => true)
      (fun s => decide (s = "base/images/a.png")) "base" 0 "images/a.png"
      (by decide)).1⟩

/-- C4: a crawled record whose `profile_flat` has no non-blank label/value
pair is still appended to the stored dataset (the crawler's append is
unconditional), but the serving layer's retention check rejects it; every
record of the served view, and hence every entry of the `/api/characters`
listing (the gallery iterates the same sequence), has at least one
non-blank pair in its `profile_flat`. -/
theorem c4_empty_profile_flat_stored_but_not_served
    (ds : List Crawler.CrawlChar) (title : String) (ib : Crawler.Infobox)
    (h : Server.is_truthy_profile_flat
      (Crawler.flat_profile ib.fields ib.groups) = false) :
    Crawler.buildCharObj title ib ∈
      Crawler.datasetAppend ds (Crawler.buildCharObj title ib) ∧
    Server.servedPred (Server.crawlToRec (Crawler.buildCharObj title ib)) = false ∧
    (∀ chars : List Server.CharRec,
      ((Server.load_dataset chars).1.all
        (fun o => Server.is_truthy_profile_flat o.profile_flat)) = true) ∧
    (∀ chars : List Server.CharRec,
      ((Server.api_characters chars).all
        (fun o => Server.is_truthy_profile_flat o.profile_flat)) = true) := by
  have hserved : ∀ chars : List Server.CharRec,
      ((Server.load_dataset chars).1.all
        (fun o => Server.is_truthy_profile_flat o.profile_flat)) = true := by
    intro chars
    apply List.all_eq_true.mpr
    intro o ho
    rcases Server.mem_load_dataset ho with ⟨ch, _, hpred, heq⟩
    have h3 : Server.is_truthy_profile_flat ch.profile_flat = true := by
      unfold Server.servedPred at hpred
      exact (Bool.and_eq_true_iff.mp hpred).2
    rw [heq]
    exact h3
  refine ⟨?_, ?_, hserved, ?_⟩
  · unfold Crawler.datasetAppend
    exact List.mem_append_right _ (List.mem_singleton.mpr rfl)
  · have hflat : Server.is_truthy_profile_flat
        (Server.crawlToRec (Crawler.buildCharObj title ib)).profile_flat = false := h
    unfold Server.servedPred
    rw [hflat]
    simp
  · intro chars
    apply List.all_eq_true.mpr
    intro o ho
    unfold Server.api_characters at ho
    rcases List.mem_map.mp ho with ⟨so, hso, heq⟩
    have h3 := List.all_eq_true.mp (hserved chars) so hso
    rw [← heq]
    exact h3

/-- C4 witness: the empty infobox yields an empty `profile_flat`; the
assembled record is in the appended dataset while the retention check
rejects it. -/
theorem c4_empty_profile_flat_stored_but_not_served_witness :
    Server.is_truthy_profile_flat (Crawler.flat_profile [] []) = false ∧
    Crawler.buildCharObj "Chase" ⟨none, none, [], []⟩ ∈
      Crawler.datasetAppend [] (Crawler.buildCharObj "Chase" ⟨none, none, [], []⟩) ∧
    Server.servedPred (Server.crawlToRec
      (Crawler.buildCharObj "Chase" ⟨none, none, [], []⟩)) = false :=
  ⟨by decide,
    (c4_empty_profile_flat_stored_but_not_served [] "Chase" ⟨none, none, [], []⟩
      (by decide)).1,
    (c4_empty_profile_flat_stored_but_not_served [] "Chase" ⟨none, none, [], []⟩
      (by decide)).2.1⟩

/-- C5 (counterexample): the id `"chase\n"` does not match
`^[a-z0-9-]{1,80}$` in the pattern's standard full-match reading, so the
claim requires status 400; but Python's `re` lets `$` match just before a
trailing newline, so `ID_RE.match("chase\n")` succeeds and the handler
proceeds to the lookup, answering 404 on an empty dataset. -/
theorem c5_trailing_newline_counterexample :
    Server.matchesIdPattern "chase\n" = false ∧
    Server.api_character_status [] "chase\n" = 404 ∧
    ¬ Server.api_character_status [] "chase\n" = 400 :=
  ⟨by decide, by decide, by decide⟩

/-- C5 (amended): the status of `GET /api/characters/<id>` is 400 exactly
when the id fails `ID_RE.match` (the pattern `^[a-z0-9-]{1,80}$` under
Python `re.match` semantics, which tolerate one trailing newline);
otherwise 404 when no retained record carries that id, otherwise 200. -/
theorem c5_api_character_status_cases (chars : List Server.CharRec)
    (cid : String) :
    (Server.pyMatchId cid = false →
      Server.api_character_status chars cid = 400) ∧
    (Server.pyMatchId cid = true →
      ((¬∃ o ∈ (Server.load_dataset chars).1, o.id = cid) →
        Server.api_character_status chars cid = 404) ∧
      ((∃ o ∈ (Server.load_dataset chars).1, o.id = cid) →
        Server.api_character_status chars cid = 200)) := by
  constructor
  · intro hm
    unfold Server.api_character_status
    rw [if_pos hm]
  · intro hm
    constructor
    · intro hnex
      unfold Server.api_character_status
      rw [if_neg (by simp [hm])]
      rw [(Server.lookupL_byId_none_iff chars cid).mpr hnex]
    · intro hex
      unfold Server.api_character_status
      rw [if_neg (by simp [hm])]
      cases hl : PyStr.lookupL (Server.load_dataset chars).2 cid with
      | none => exact absurd hex ((Server.lookupL_byId_none_iff chars cid).mp hl)
      | some w => rfl

/-- C5 witness: a valid id on an empty dataset is answered 404. -/
theorem c5_api_character_status_cases_witness :
    Server.pyMatchId "chase" = true ∧
    (¬∃ o ∈ (Server.load_dataset ([] : List Server.CharRec)).1, o.id = "chase") ∧
    Server.api_character_status [] "chase" = 404 :=
  ⟨by decide, by decide,
    ((c5_api_character_status_cases [] "chase").2 (by decide)).1 (by decide)⟩

namespace Translator

theorem takeBatchAux_append (l : List String) (count total : Nat) :
    (takeBatchAux l count total).1 ++ (takeBatchAux l count total).2 = l := by
  induction l generalizing count total with
  | nil => rfl
  | cons t rest ih =>
    unfold takeBatchAux
    by_cases h1 : 50 ≤ count
    · rw [if_pos h1]
      rfl
    · rw [if_neg h1]
      by_cases h2 : count ≠ 0 ∧ 8000 < total + t.length
      · rw [if_pos h2]
        rfl
      · rw [if_neg h2]
        simp only [List.cons_append, List.cons.injEq, true_and]
        exact ih _ _

theorem takeBatchAux_rest_length (l : List String) (count total : Nat) :
    (takeBatchAux l count total).2.length ≤ l.length := by
  have h := congrArg List.length (takeBatchAux_append l count total)
  rw [List.length_append] at h
  omega

theorem mkBatchesFuel_flatten (fuel : Nat) :
    ∀ l : List String, l.length ≤ fuel → (mkBatchesFuel fuel l).flatten = l := by
  induction fuel with
  | zero =>
    intro l hl
    cases l with
    | nil => rfl
    | cons t rest => simp at hl
  | succ n ih =>
    intro l hl
    cases l with
    | nil => rfl
    | cons t rest =>
      simp only [mkBatchesFuel, List.flatten_cons]
      rw [ih _ (by
        have := takeBatchAux_rest_length rest 1 t.length
        simp only [List.length_cons] at hl
        omega)]
      simp only [List.cons_append, List.cons.injEq, true_and]
      exact takeBatchAux_append rest 1 t.length

theorem mem_mkBatches {todo : List String} {b : List String} {s : String}
    (hb : b ∈ mkBatches todo) (hs : s ∈ b) : s ∈ todo := by
  have h := mkBatchesFuel_flatten todo.length todo le_rfl
  rw [← h]
  exact List.mem_flatten.mpr ⟨b, hb, hs⟩

end Translator

/-- C8: `translate_many` issues remote batches only for cleaned unique
input strings absent from the cache (every string of every sent batch is
uncached), and when every cleaned unique input is already cached it sends
zero remote batches and returns exactly the cached translations. -/
theorem c8_translate_many_warm_cache (R : String → String)
    (cache : List (String × String)) (texts : List String) :
    ((Translator.translate_many R cache texts).calls.all (fun b =>
      b.all (fun s => !PyStr.containsKeyB cache s &&
        (Translator.uniqTexts texts).contains s)) = true) ∧
    ((Translator.uniqTexts texts).all
        (fun t => PyStr.containsKeyB cache t) = true →
      (Translator.translate_many R cache texts).calls = [] ∧
      (Translator.translate_many R cache texts).res =
        (Translator.uniqTexts texts).filterMap (fun t =>
          (PyStr.lookupL cache t).map (fun v => (t, v)))) := by
  constructor
  · apply List.all_eq_true.mpr
    intro b hb
    apply List.all_eq_true.mpr
    intro s hs
    have hmem : s ∈ Translator.todoOf cache texts :=
      Translator.mem_mkBatches hb hs
    have h2 := List.mem_filter.mp hmem
    simp only [Bool.and_eq_true]
    refine ⟨h2.2, List.elem_eq_true_of_mem h2.1⟩
  · intro hall
    have htodo : Translator.todoOf cache texts = [] := by
      unfold Translator.todoOf
      apply List.filter_eq_nil_iff.mpr
      intro t ht
      have h3 := List.all_eq_true.mp hall t ht
      simp [h3]
    constructor
    · show Translator.mkBatches (Translator.todoOf cache texts) = []
      rw [htodo]
      rfl
    · show (Translator.uniqTexts texts).filterMap (fun t =>
        (PyStr.lookupL (Translator.cacheAfter R cache
          (Translator.mkBatches (Translator.todoOf cache texts))) t).map
          (fun v => (t, v))) = _
      rw [htodo]
      rfl

/-- C8 witness: a single already-cached string triggers no remote batch
and its cached translation is returned. -/
theorem c8_translate_many_warm_cache_witness :
    (Translator.uniqTexts ["Chase"]).all
        (fun t => PyStr.containsKeyB [("Chase", "Chase")] t) = true ∧
    (Translator.translate_many (fun s => s) [("Chase", "Chase")]
      ["Chase"]).calls = [] ∧
    (Translator.translate_many (fun s => s) [("Chase", "Chase")]
      ["Chase"]).res = [("Chase", "Chase")] :=
  ⟨by decide,
    ((c8_translate_many_warm_cache (fun s => s) [("Chase", "Chase")]
      ["Chase"]).2 (by decide)).1,
    by
      rw [((c8_translate_many_warm_cache (fun s => s) [("Chase", "Chase")]
        ["Chase"]).2 (by decide)).2]
      decide⟩

namespace PyStr

theorem mem_collapseRunsAux_strong {p : Char → Bool} {r : Char}
    {l : List Char} {b : Bool} {c : Char}
    (h : c ∈ collapseRunsAux p r b l) : c = r ∨ (c ∈ l ∧ p c = false) := by
  induction l generalizing b with
  | nil => simp [collapseRunsAux] at h
  | cons d rest ih =>
    by_cases hd : p d = true
    · cases b with
      | true =>
        simp only [collapseRunsAux, hd, if_true] at h
        rcases ih h with h2 | h2
        · exact Or.inl h2
        · exact Or.inr ⟨List.mem_cons_of_mem d h2.1, h2.2⟩
      | false =>
        simp only [collapseRunsAux, hd, if_true] at h
        rcases List.mem_cons.mp h with h2 | h2
        · exact Or.inl h2
        · rcases ih h2 with h3 | h3
          · exact Or.inl h3
          · exact Or.inr ⟨List.mem_cons_of_mem d h3.1, h3.2⟩
    · simp only [collapseRunsAux, hd, if_false, Bool.false_eq_true] at h
      rcases List.mem_cons.mp h with h2 | h2
      · refine Or.inr ⟨h2 ▸ List.mem_cons_self d rest, ?_⟩
        rw [h2]
        simpa using hd
      · rcases ih h2 with h3 | h3
        · exact Or.inl h3
        · exact Or.inr ⟨List.mem_cons_of_mem d h3.1, h3.2⟩

theorem mem_collapseRuns_strong {p : Char → Bool} {r : Char} {l : List Char}
    {c : Char}
    (h : c ∈ collapseRuns p r l) : c = r ∨ (c ∈ l ∧ p c = false) := by
  unfold collapseRuns at h
  exact mem_collapseRunsAux_strong h

end PyStr

namespace Translator

theorem mem_cleanTextTrL_props {l : List Char} {c : Char}
    (h : c ∈ cleanTextTrL l) :
    isControl c = false ∧ (PyStr.isWs c = true → c = ' ') := by
  unfold cleanTextTrL at h
  have h1 := PyStr.mem_strip h
  rcases PyStr.mem_collapseRuns_strong h1 with h2 | h2
  · subst h2
    exact ⟨by decide, fun _ => rfl⟩
  · obtain ⟨hmem, hws⟩ := h2
    rcases List.mem_map.mp hmem with ⟨d, _, hd⟩
    by_cases hcd : isControl d = true
    · rw [if_pos hcd] at hd
      rw [← hd] at hws
      exact absurd hws (by simp [PyStr.isWs])
    · rw [if_neg hcd] at hd
      rw [← hd]
      exact ⟨by simpa using hcd, fun hcon => by
        rw [hd] at hcon
        rw [hd]
        exact absurd hcon (by simp [hws])⟩

theorem cleanTextTrL_chain (l : List Char) :
    List.Chain' (fun a b => ¬(PyStr.isWs a = true ∧ PyStr.isWs b = true))
      (cleanTextTrL l) := by
  unfold cleanTextTrL
  apply PyStr.chain'_strip
  · intro a b hab hcon
    exact hab ⟨hcon.2, hcon.1⟩
  · exact PyStr.chain'_collapseRuns _ ' ' _

theorem cleanTextTrL_head (l : List Char) :
    ∀ c, (cleanTextTrL l).head? = some c → PyStr.isWs c = false := by
  intro c hc
  unfold cleanTextTrL at hc
  exact PyStr.strip_head?_false hc

theorem cleanTextTrL_last (l : List Char) :
    ∀ c, (cleanTextTrL l).getLast? = some c → PyStr.isWs c = false := by
  intro c hc
  unfold cleanTextTrL at hc
  exact PyStr.strip_getLast?_false hc

theorem cleanTextTrL_idem (l : List Char) :
    cleanTextTrL (cleanTextTrL l) = cleanTextTrL l := by
  have e1 : (cleanTextTrL l).map (fun c => if isControl c then ' ' else c) =
      cleanTextTrL l :=
    PyStr.map_eq_self_of (fun c hc => by
      rw [if_neg (by simp [(mem_cleanTextTrL_props hc).1])])
  have e2 : PyStr.collapseRuns PyStr.isWs ' ' (cleanTextTrL l) =
      cleanTextTrL l :=
    PyStr.collapseRuns_eq_self_of_chain _ ' ' _
      (fun c hc hw => (mem_cleanTextTrL_props hc).2 hw)
      (cleanTextTrL_chain l)
  have e3 : PyStr.strip PyStr.isWs (cleanTextTrL l) = cleanTextTrL l :=
    PyStr.strip_eq_self_of_ends (cleanTextTrL_head l) (cleanTextTrL_last l)
  show PyStr.strip PyStr.isWs (PyStr.collapseRuns PyStr.isWs ' '
    ((cleanTextTrL l).map (fun c => if isControl c then ' ' else c))) = _
  rw [e1, e2, e3]

theorem clean_text_mk (w : List Char) :
    clean_text (String.mk w) = String.mk (cleanTextTrL w) := rfl

theorem clean_text_idem (s : String) :
    clean_text (clean_text s) = clean_text s := by
  rw [show clean_text s = String.mk (cleanTextTrL s.toList) from rfl,
    clean_text_mk, cleanTextTrL_idem]

end Translator

namespace Translator

theorem collect_single (v : String) (h1 : nonempty_str v = true) :
    collect_texts_for_translation
      [⟨none, [], [], [("L", v)]⟩] = [v] := by
  simp [collect_texts_for_translation, collect_texts_for_char, h1]

theorem uniq_single (v : String) (h2 : clean_text v ≠ "") :
    uniqTexts [v] = [clean_text v] := by
  simp [uniqTexts, dedupClean, h2]

theorem translate_many_single (R : String → String) (v : String)
    (h2 : clean_text v ≠ "") :
    translate_many R [] [v] =
      ⟨[(clean_text v, clean_text (R (clean_text v)))],
       [(clean_text v, clean_text (R (clean_text v)))],
       [[clean_text v]]⟩ := by
  have htodo : todoOf [] [v] = [clean_text v] := by
    unfold todoOf
    rw [uniq_single v h2]
    simp [PyStr.containsKeyB]
  have hbat : mkBatches [clean_text v] = [[clean_text v]] := rfl
  have hca : cacheAfter R [] [[clean_text v]] =
      [(clean_text v, clean_text (R (clean_text v)))] := by
    simp [cacheAfter, PyStr.dictInsert]
  unfold translate_many
  rw [htodo, hbat, hca, uniq_single v h2]
  simp [PyStr.lookupL]

theorem tr_single (R : String → String) (v : String)
    (h2 : clean_text v ≠ "") (st : TrState)
    (hst : st.cache = [(clean_text v, clean_text (R (clean_text v)))]) :
    tr R [(clean_text v, clean_text (R (clean_text v)))] st v =
      (clean_text (R (clean_text v)), st) := by
  unfold tr
  rw [if_neg h2]
  have hlk : PyStr.lookupL
      [(clean_text v, clean_text (R (clean_text v)))] (clean_text v) =
      some (clean_text (R (clean_text v))) := by
    simp [PyStr.lookupL]
  rw [hlk]
  dsimp only
  by_cases hd : clean_text (R (clean_text v)) ≠ ""
  · rw [if_pos hd]
  · rw [if_neg hd]
    push_neg at hd
    unfold translate_one
    rw [if_neg (by rw [clean_text_idem]; exact h2)]
    rw [clean_text_idem, hst]
    rw [hlk, hd]

end Translator

namespace Translator

theorem transformChar_single (R : String → String) (v : String)
    (h1 : nonempty_str v = true) (h2 : clean_text v ≠ "")
    (calls0 : List (List String)) :
    transformChar R [(clean_text v, clean_text (R (clean_text v)))]
      ⟨[(clean_text v, clean_text (R (clean_text v)))], calls0⟩
      ⟨none, [], [], [("L", v)]⟩ =
      (⟨none, [], [], [("L", clean_text (R (clean_text v)))]⟩,
        ⟨[(clean_text v, clean_text (R (clean_text v)))], calls0⟩) := by
  unfold transformChar
  simp only [List.foldl_cons, List.foldl_nil, mapState]
  rw [show map_label "L" = "L" from rfl]
  rw [if_pos h1]
  rw [tr_single R v h2 ⟨[(clean_text v, clean_text (R (clean_text v)))], calls0⟩ rfl]
  simp [PyStr.dictInsert]

end Translator

/-- C2 (counterexample): the value `"Chase"` — a proper noun a glossary
would protect — is sent to the remote translator verbatim (the only batch
is `[["Chase"]]`), and the stored value is whatever the remote returns:
two remotes that differ on `"Chase"` yield different transformed
datasets, so no fixed glossary equivalent is substituted either before or
after the remote call. -/
theorem c2_glossary_counterexample :
    (Translator.transform_dataset (fun _ => "Chase") []
        [⟨none, [], [], [("Species", "Chase")]⟩]).1 ≠
      (Translator.transform_dataset (fun _ => "Gejagt") []
        [⟨none, [], [], [("Species", "Chase")]⟩]).1 ∧
    (Translator.transform_dataset (fun _ => "Chase") []
        [⟨none, [], [], [("Species", "Chase")]⟩]).2.calls = [["Chase"]] ∧
    (Translator.transform_dataset (fun _ => "Gejagt") []
        [⟨none, [], [], [("Species", "Chase")]⟩]).1 =
      [⟨none, [], [], [("Spezies", "Gejagt")]⟩] :=
  ⟨by decide, by decide, by decide⟩

/-- C2 (amended): the Translation Pass applies no glossary substitution.
For every remote translator `R` and nonempty value `v`, transforming a
dataset holding `v` as a profile-flat value sends exactly the cleaned
value itself to the remote (one batch `[[clean_text v]]`, no replacement
before the call) and stores exactly the cleaned remote translation
`clean_text (R (clean_text v))` (no replacement after the call); the only
fixed mapping is `LABEL_DE`, applied to labels. -/
theorem c2_no_glossary_value_passthrough (R : String → String) (v : String)
    (h1 : Translator.nonempty_str v = true)
    (h2 : Translator.clean_text v ≠ "") :
    (Translator.transform_dataset R [] [⟨none, [], [], [("L", v)]⟩]).1 =
      [⟨none, [], [],
        [("L", Translator.clean_text (R (Translator.clean_text v)))]⟩] ∧
    (Translator.transform_dataset R [] [⟨none, [], [], [("L", v)]⟩]).2.calls =
      [[Translator.clean_text v]] := by
  have htm := Translator.translate_many_single R v h2
  unfold Translator.transform_dataset
  rw [Translator.collect_single v h1, htm]
  dsimp only
  simp only [Translator.mapState]
  rw [Translator.transformChar_single R v h1 h2 [[Translator.clean_text v]]]
  exact ⟨rfl, rfl⟩

/-- C2 amended-claim witness at `v = "Chase"` and the identity remote. -/
theorem c2_no_glossary_value_passthrough_witness :
    Translator.nonempty_str "Chase" = true ∧
    Translator.clean_text "Chase" ≠ "" ∧
    (Translator.transform_dataset (fun s => s) []
        [⟨none, [], [], [("L", "Chase")]⟩]).2.calls = [["Chase"]] :=
  ⟨by decide, by decide,
    by
      rw [(c2_no_glossary_value_passthrough (fun s => s) "Chase"
        (by decide) (by decide)).2]
      decide⟩

namespace Crawler

theorem extractLinksAux_eq (anchors : List Anchor) :
    ∀ (seen : List String) (acc : List (String × String)),
    extractLinksAux anchors seen acc =
      acc ++ dedupByLowerUrl (anchors.filterMap acceptAnchor) seen := by
  induction anchors with
  | nil =>
    intro seen acc
    simp [extractLinksAux, dedupByLowerUrl]
  | cons a rest ih =>
    intro seen acc
    cases ha : acceptAnchor a with
    | none =>
      simp only [extractLinksAux, List.filterMap_cons, ha]
      exact ih seen acc
    | some p =>
      simp only [extractLinksAux, List.filterMap_cons, ha]
      by_cases hc : seen.contains (lowerStr p.2) = true
      · rw [if_pos hc, ih seen acc]
        simp only [dedupByLowerUrl, if_pos hc]
      · rw [if_neg hc, ih]
        simp only [dedupByLowerUrl, if_neg hc]
        simp [List.append_assoc]

theorem dedupByLowerUrl_props (l : List (String × String)) :
    ∀ seen : List String,
    ((dedupByLowerUrl l seen).map (fun p => lowerStr p.2)).Nodup ∧
      ∀ p ∈ dedupByLowerUrl l seen,
        seen.contains (lowerStr p.2) = false ∧ p ∈ l := by
  induction l with
  | nil =>
    intro seen
    exact ⟨List.Pairwise.nil, fun p hp => absurd hp (by simp [dedupByLowerUrl])⟩
  | cons q rest ih =>
    intro seen
    by_cases hc : seen.contains (lowerStr q.2) = true
    · simp only [dedupByLowerUrl, if_pos hc]
      exact ⟨(ih seen).1, fun p hp =>
        ⟨((ih seen).2 p hp).1, List.mem_cons_of_mem q ((ih seen).2 p hp).2⟩⟩
    · simp only [dedupByLowerUrl, if_neg hc]
      constructor
      · rw [List.map_cons]
        apply List.nodup_cons.mpr
        constructor
        · intro hmem
          rcases List.mem_map.mp hmem with ⟨p, hp, hkey⟩
          have h2 := ((ih (lowerStr q.2 :: seen)).2 p hp).1
          rw [List.contains_cons, hkey] at h2
          simp at h2
        · exact (ih (lowerStr q.2 :: seen)).1
      · intro p hp
        rcases List.mem_cons.mp hp with h | h
        · subst h
          exact ⟨by simpa using hc, List.mem_cons_self _ _⟩
        · obtain ⟨hcon, hmem⟩ := (ih (lowerStr q.2 :: seen)).2 p h
          refine ⟨?_, List.mem_cons_of_mem q hmem⟩
          rw [List.contains_cons] at hcon
          cases hs : seen.contains (lowerStr p.2) with
          | false => rfl
          | true =>
            rw [hs] at hcon
            simp at hcon

theorem titleOfUrl_append (path : String) :
    titleOfUrl (WIKI_BASE ++ path) = pyUnquote (path.toList.drop 6) := by
  unfold titleOfUrl
  rw [show (WIKI_BASE ++ path).toList = WIKI_BASE.toList ++ path.toList from rfl]
  rw [List.drop_append 6]

theorem acceptAnchor_props {a : Anchor} {p : String × String}
    (h : acceptAnchor a = some p) :
    (titleOfUrl p.2).contains ':' = false ∧
    ¬ String.mk ((titleOfUrl p.2).map (fun c => if c = ' ' then '_' else c)) =
      LIST_PAGE_TITLE := by
  unfold acceptAnchor at h
  by_cases h1 : clean_text a.text = ""
  · rw [if_pos h1] at h
    exact absurd h (by simp)
  · rw [if_neg h1] at h
    by_cases h2 : ((PyStr.startswith a.href "http://" ||
          PyStr.startswith a.href "https://") &&
        !PyStr.startswith a.href (WIKI_BASE ++ "/wiki/")) = true
    · rw [if_pos h2] at h
      exact absurd h (by simp)
    · rw [if_neg h2] at h
      by_cases h3 : PyStr.startswith (urlsplitPath a.href) "/wiki/" = false
      · rw [if_pos h3] at h
        exact absurd h (by simp)
      · rw [if_neg h3] at h
        by_cases h4 : (urlsplitPath a.href).toList.drop 6 = []
        · rw [if_pos h4] at h
          exact absurd h (by simp)
        · rw [if_neg h4] at h
          by_cases h5 : (pyUnquote ((urlsplitPath a.href).toList.drop 6)).contains
              ':' = true
          · rw [if_pos h5] at h
            exact absurd h (by simp)
          · rw [if_neg h5] at h
            by_cases h6 : String.mk
                ((pyUnquote ((urlsplitPath a.href).toList.drop 6)).map
                  (fun c => if c = ' ' then '_' else c)) = LIST_PAGE_TITLE
            · rw [if_pos h6] at h
              exact absurd h (by simp)
            · rw [if_neg h6] at h
              have hp : p = (clean_text a.text, WIKI_BASE ++ urlsplitPath a.href) := by
                injection h with hh
                exact hh.symm
              rw [hp]
              constructor
              · rw [titleOfUrl_append]
                cases hcc : (pyUnquote
                    ((urlsplitPath a.href).toList.drop 6)).contains ':' with
                | false => rfl
                | true => exact absurd hcc h5
              · rw [titleOfUrl_append]
                exact h6

end Crawler

/-- C9: Link Discovery returns exactly the accepted anchors deduplicated
case-insensitively by full absolute URL, preserving first-seen document
order; the emitted lowercased URLs are pairwise distinct; and every
emitted link's decoded page-title segment is free of `:` (no namespace
links) and differs from the listing page's own title (no self-link). -/
theorem c9_link_discovery_filters_and_dedup (anchors : List Crawler.Anchor) :
    Crawler.extract_character_links_from_list_html anchors =
      Crawler.linksSpec anchors ∧
    ((Crawler.extract_character_links_from_list_html anchors).map
      (fun p => Crawler.lowerStr p.2)).Nodup ∧
    (Crawler.extract_character_links_from_list_html anchors).all
      (fun p => !(Crawler.titleOfUrl p.2).contains ':' &&
        !decide (String.mk ((Crawler.titleOfUrl p.2).map
            (fun c => if c = ' ' then '_' else c)) =
          Crawler.LIST_PAGE_TITLE)) = true := by
  have heq : Crawler.extract_character_links_from_list_html anchors =
      Crawler.linksSpec anchors := by
    unfold Crawler.extract_character_links_from_list_html Crawler.linksSpec
    rw [Crawler.extractLinksAux_eq anchors [] []]
    rfl
  refine ⟨heq, ?_, ?_⟩
  · rw [heq]
    exact (Crawler.dedupByLowerUrl_props (anchors.filterMap Crawler.acceptAnchor)
      []).1
  · rw [heq]
    apply List.all_eq_true.mpr
    intro p hp
    have hmem := ((Crawler.dedupByLowerUrl_props
      (anchors.filterMap Crawler.acceptAnchor) []).2 p hp).2
    rcases List.mem_filterMap.mp hmem with ⟨a, _, ha⟩
    obtain ⟨hcolon, hself⟩ := Crawler.acceptAnchor_props ha
    have hnotmem : ':' ∉ Crawler.titleOfUrl p.2 := by
      simpa using hcolon
    simp [hnotmem, hself]
